import Mathlib

/-!
# Games: Blackjack and Monster Hunter

A shallow embedding of the two console games of the repository
(`Blackjack/blackjack.cpp` and `Monster Hunter/Game.cpp`) together with the
properties proved about them.

Conventions of the embedding

* C++ `int` values are `Int`; enumerators are carried by their underlying
  value (`Nat`), so that `static_cast` from a counter is the identity.
* Standard input is the list of characters still unread; every
  `std::cin >> c` takes the head of that list.  An empty list means that no
  further character arrives, and the function reading it has no result.
* The generator behind `rand()` is represented by the list of the values
  that the successive calls of `getRandomNumber` return; `getRandomNumber`
  itself is embedded on its own, as a function of the value of `rand()`.
* Loops whose number of iterations is not bounded by the shape of their
  input take a `fuel` argument that bounds the number of iterations.
* Text written to `std::cout` is not part of the state.
-/

namespace Games

/-! ## Blackjack: cards -/

/-- Underlying value of `Card::SUIT_CLUB`. -/
def Card.SUIT_CLUB : Nat := 0
/-- Underlying value of `Card::SUIT_DIAMOND`. -/
def Card.SUIT_DIAMOND : Nat := 1
/-- Underlying value of `Card::SUIT_HEART`. -/
def Card.SUIT_HEART : Nat := 2
/-- Underlying value of `Card::SUIT_SPADE`. -/
def Card.SUIT_SPADE : Nat := 3
/-- Underlying value of `Card::MAX_SUITS`. -/
def Card.MAX_SUITS : Nat := 4

/-- Underlying value of `Card::RANK_2`; the ranks that follow count up from it. -/
def Card.RANK_2 : Nat := 2
/-- Underlying value of `Card::RANK_10`. -/
def Card.RANK_10 : Nat := 10
/-- Underlying value of `Card::RANK_JACK`. -/
def Card.RANK_JACK : Nat := 11
/-- Underlying value of `Card::RANK_QUEEN`. -/
def Card.RANK_QUEEN : Nat := 12
/-- Underlying value of `Card::RANK_KING`. -/
def Card.RANK_KING : Nat := 13
/-- Underlying value of `Card::RANK_ACE`. -/
def Card.RANK_ACE : Nat := 14
/-- Underlying value of `Card::MAX_RANKS`. -/
def Card.MAX_RANKS : Nat := 15

/-- A playing card, `class Card`: the two enumeration members by underlying value. -/
structure Card where
  m_rank : Nat
  m_suit : Nat
deriving DecidableEq, Repr

/-- `Card::getCardValue`: the `switch` over `m_rank`, with `return 0` after it. -/
def Card.getCardValue (c : Card) : Int :=
  match c.m_rank with
  | 2 => 2
  | 3 => 3
  | 4 => 4
  | 5 => 5
  | 6 => 6
  | 7 => 7
  | 8 => 8
  | 9 => 9
  | 10 => 10
  | 11 => 10
  | 12 => 10
  | 13 => 10
  | 14 => 11
  | _ => 0

/-! ## Blackjack: the deck -/

/-- The deck, `class Deck`: the array `m_deck`, as the list of its cells. -/
structure Deck where
  m_deck : List Card
deriving DecidableEq, Repr

/-- Loop of the constructor `Deck::Deck` over the remaining `n` cells, with
the counters `rank` and `suit`: the cell receives
`Card((rank % 13) + 2, suit)`, then `rank` is incremented and `suit` is
incremented when the new `rank` is a multiple of 13. -/
def Deck.fill : Nat → Nat → Nat → List Card
  | 0, _, _ => []
  | n + 1, rank, suit =>
    Card.mk ((rank % 13) + 2) suit ::
      Deck.fill n (rank + 1) (if (rank + 1) % 13 = 0 then suit + 1 else suit)

/-- The constructor `Deck::Deck`: 52 cells, counters starting at 0. -/
def Deck.new : Deck := ⟨Deck.fill 52 0 0⟩

/-- `Deck::swapCard`, applied to the cells at positions `a` and `b` of the
array: `temp = a; a = b; b = temp`.  A position outside the array has no
cell to refer to, and the call has no result. -/
def Deck.swapCard (d : Deck) (a b : Nat) : Option Deck :=
  match d.m_deck[a]?, d.m_deck[b]? with
  | some ca, some cb =>
    let temp := ca
    some ⟨(d.m_deck.set a cb).set b temp⟩
  | _, _ => none

/-- Loop of `Deck::shuffleDeck` over the `n` cells from position `i` on:
each iteration takes the next value of `getRandomNumber(0, 51)` as
`swapIndex` and swaps the cell with `m_deck[swapIndex]`.  The result also
carries the values not consumed. -/
def Deck.shuffleFrom : Nat → Nat → List Nat → Deck → Option (Deck × List Nat)
  | 0, _, randoms, d => some (d, randoms)
  | _ + 1, _, [], _ => none
  | n + 1, i, swapIndex :: randoms, d =>
    match d.swapCard i swapIndex with
    | some d1 => Deck.shuffleFrom n (i + 1) randoms d1
    | none => none

/-- `Deck::shuffleDeck`, given the values returned by the successive calls
of `getRandomNumber(0, 51)`. -/
def Deck.shuffleDeck (d : Deck) (randoms : List Nat) : Option Deck :=
  match Deck.shuffleFrom d.m_deck.length 0 randoms d with
  | some (d1, _) => some d1
  | none => none

/-- `Deck::dealCard`: `return *ptr++` on the function-static pointer, which
starts at `&m_deck[0]` and is kept here as its offset `ptr` from that cell.
The result is the cell read and the pointer after the call.  There is no
comparison with the end of the array in the source: the pointer advances at
every call, and once it has left the array no card lies under it (`none`;
the source leaves that read undefined, and `dealCardStorage` below follows
it into the storage behind the array). -/
def Deck.dealCard (d : Deck) (ptr : Nat) : Option Card × Nat :=
  (d.m_deck[ptr]?, ptr + 1)

/-- The cells returned by `n` successive calls of `dealCard` from pointer
`ptr`, and the pointer after them. -/
def Deck.dealCards (d : Deck) : Nat → Nat → List (Option Card) × Nat
  | 0, ptr => ([], ptr)
  | n + 1, ptr =>
    let r := d.dealCard ptr
    let rest := Deck.dealCards d n r.2
    (r.1 :: rest.1, rest.2)

/-! ## Blackjack: the round -/

/-- The constructor `Blackjack::Blackjack`: the member `deck` is
default-constructed and then shuffled. -/
def Blackjack.new (randoms : List Nat) : Option Deck :=
  Deck.new.shuffleDeck randoms

/-- `Blackjack::getPlayerChoice`: `do std::cin >> choice; while (choice != 'h' && choice != 's')`.
The result is the member `choice` and the input left unread. -/
def Blackjack.getPlayerChoice : List Char → Option (Char × List Char)
  | [] => none
  | choice :: cin =>
    if choice ≠ 'h' ∧ choice ≠ 's' then Blackjack.getPlayerChoice cin
    else some (choice, cin)

/-- State of `playBlackjack` at the point where its `while (1)` loop is
left: by `break` (`bust = false`) or by `return false` (`bust = true`). -/
structure Blackjack.Turn where
  playerTotal : Int
  ptr : Nat
  choice : Char
  cin : List Char
  bust : Bool
deriving DecidableEq, Repr

/-- The `while (1)` loop of `Blackjack::playBlackjack`, at most `fuel`
iterations of it. -/
def Blackjack.playerLoop (d : Deck) : Nat → Int → Nat → List Char → Option Blackjack.Turn
  | 0, _, _, _ => none
  | fuel + 1, playerTotal, ptr, cin =>
    match Blackjack.getPlayerChoice cin with
    | none => none
    | some (choice, cin1) =>
      if choice = 's' then some ⟨playerTotal, ptr, choice, cin1, false⟩
      else
        match d.dealCard ptr with
        | (some card, ptr1) =>
          let playerTotal1 := playerTotal + card.getCardValue
          if playerTotal1 > 21 then some ⟨playerTotal1, ptr1, choice, cin1, true⟩
          else Blackjack.playerLoop d fuel playerTotal1 ptr1 cin1
        | (none, _) => none

/-- The `while (dealerTotal < 17)` loop of `Blackjack::playBlackjack`, at
most `fuel` tests of its condition.  The result is the dealer total and the
deal pointer after the loop. -/
def Blackjack.dealerLoop (d : Deck) : Nat → Int → Nat → Option (Int × Nat)
  | 0, _, _ => none
  | fuel + 1, dealerTotal, ptr =>
    if dealerTotal < 17 then
      match d.dealCard ptr with
      | (some card, ptr1) => Blackjack.dealerLoop d fuel (dealerTotal + card.getCardValue) ptr1
      | (none, _) => none
    else some (dealerTotal, ptr)

/-- State in which `playBlackjack` returns: the value returned (`win`) and
the variables of the round. -/
structure Blackjack.Round where
  win : Bool
  playerTotal : Int
  dealerTotal : Int
  ptr : Nat
  choice : Char
  cin : List Char
  bust : Bool
deriving DecidableEq, Repr

/-- `Blackjack::playBlackjack` on the deck `d`, with the deal pointer at the
first cell (the round is the first user of `dealCard`).  Every iteration of
either loop but its last one deals a card, so neither loop can make more
iterations than the deck has cells plus one; that bound is the fuel. -/
def Blackjack.playBlackjack (d : Deck) (cin : List Char) : Option Blackjack.Round :=
  match d.dealCard 0 with
  | (none, _) => none
  | (some card0, ptr1) =>
    let dealerTotal := 0 + card0.getCardValue
    match d.dealCard ptr1 with
    | (none, _) => none
    | (some card1, ptr2) =>
      match d.dealCard ptr2 with
      | (none, _) => none
      | (some card2, ptr3) =>
        let playerTotal := 0 + card1.getCardValue + card2.getCardValue
        match Blackjack.playerLoop d (d.m_deck.length + 1) playerTotal ptr3 cin with
        | none => none
        | some t =>
          if t.bust then
            some ⟨false, t.playerTotal, dealerTotal, t.ptr, t.choice, t.cin, true⟩
          else
            match Blackjack.dealerLoop d (d.m_deck.length + 1) dealerTotal t.ptr with
            | none => none
            | some (dealerTotal1, ptr4) =>
              if dealerTotal1 > 21 then
                some ⟨true, t.playerTotal, dealerTotal1, ptr4, t.choice, t.cin, false⟩
              else
                some ⟨decide (t.playerTotal > dealerTotal1), t.playerTotal, dealerTotal1, ptr4,
                  t.choice, t.cin, false⟩

/-- The program `main` of Blackjack: construct the game (shuffling the
deck) and play the round; the result is what decides between the two
messages. -/
def Blackjack.main (randoms : List Nat) (cin : List Char) : Option Bool :=
  match Blackjack.new randoms with
  | none => none
  | some deck =>
    match Blackjack.playBlackjack deck cin with
    | none => none
    | some r => some r.win

/-- The first statements of `Blackjack::playBlackjack`, up to its loop:
`dealerTotal` receives the value of one card (this is the total written as
"The dealer is showing"), `playerTotal` the values of the two cards dealt
next.  The result is `dealerTotal`, `playerTotal` and the deal pointer. -/
def Blackjack.initialDeal (d : Deck) : Option (Int × Int × Nat) :=
  match d.dealCard 0 with
  | (none, _) => none
  | (some card0, ptr1) =>
    let dealerTotal := 0 + card0.getCardValue
    match d.dealCard ptr1 with
    | (none, _) => none
    | (some card1, ptr2) =>
      match d.dealCard ptr2 with
      | (none, _) => none
      | (some card2, ptr3) =>
        let playerTotal := 0 + card1.getCardValue + card2.getCardValue
        some (dealerTotal, playerTotal, ptr3)

/-- The statements of `Blackjack::playBlackjack` from its `while (1)` loop
on, for the totals and the pointer left by the first statements. -/
def Blackjack.afterDeal (d : Deck) (dealerTotal playerTotal : Int) (ptr3 : Nat)
    (cin : List Char) : Option Blackjack.Round :=
  match Blackjack.playerLoop d (d.m_deck.length + 1) playerTotal ptr3 cin with
  | none => none
  | some t =>
    if t.bust then
      some ⟨false, t.playerTotal, dealerTotal, t.ptr, t.choice, t.cin, true⟩
    else
      match Blackjack.dealerLoop d (d.m_deck.length + 1) dealerTotal t.ptr with
      | none => none
      | some (dealerTotal1, ptr4) =>
        if dealerTotal1 > 21 then
          some ⟨true, t.playerTotal, dealerTotal1, ptr4, t.choice, t.cin, false⟩
        else
          some ⟨decide (t.playerTotal > dealerTotal1), t.playerTotal, dealerTotal1, ptr4,
            t.choice, t.cin, false⟩

/-- The values of the `n` cells of the deck from position `ptr` on, added up. -/
def Deck.valueSum (d : Deck) (ptr n : Nat) : Int :=
  (((d.m_deck.drop ptr).take n).map Card.getCardValue).sum

/-! ## The random number helper -/

/-- The constant `RAND_MAX` of `<cstdlib>`, which the repository does not
define: one less than a power of two, `2 ^ bits - 1` (32767 for `bits = 15`,
2147483647 for `bits = 31`). -/
def RAND_MAX (bits : Nat) : Int := 2 ^ bits - 1

/-- The inputs of `getRandomNumber` on which the arithmetic of the source
is exact, so that its result is that of the same expression over the
integers and the rationals:
`RAND_MAX` and `rand` are values that `rand()` can return; `min` and `max`
are `int` values and `max - min + 1` is computed without `int` overflow;
`fraction = 1.0 / (RAND_MAX + 1.0)` is a power of two, so that
`rand * fraction` is exact; and the product with `max - min + 1` and the
sum with `min` are numbers `m / (RAND_MAX + 1)` with `m` an integer below
`2 ^ 53` in absolute value, which a `double` holds exactly. -/
def getRandomNumberExact (bits : Nat) (rand min max : Int) : Prop :=
  bits ≤ 31 ∧ 0 ≤ rand ∧ rand ≤ RAND_MAX bits ∧
  -2147483648 ≤ min ∧ min ≤ 2147483647 ∧ -2147483648 ≤ max ∧ max ≤ 2147483647 ∧
  -2147483648 ≤ max - min ∧ max - min ≤ 2147483647 ∧
  -2147483648 ≤ max - min + 1 ∧ max - min + 1 ≤ 2147483647 ∧
  -9007199254740992 < rand * (max - min + 1) ∧
  rand * (max - min + 1) < 9007199254740992 ∧
  -9007199254740992 < rand * (max - min + 1) + min * (RAND_MAX bits + 1) ∧
  rand * (max - min + 1) + min * (RAND_MAX bits + 1) < 9007199254740992

/-- Whether the arithmetic is exact on given inputs can be computed. -/
instance getRandomNumberExact.decidable (bits : Nat) (rand min max : Int) :
    Decidable (getRandomNumberExact bits rand min max) := by
  unfold getRandomNumberExact
  infer_instance

/-- `getRandomNumber` of `Game.cpp`, for the value `rand` returned by its
call of `rand()` and `RAND_MAX = 2 ^ bits - 1`:
`static_cast<int>(rand * fraction * (max - min + 1) + min)` with
`fraction = 1.0 / (RAND_MAX + 1.0)`.  On the inputs of
`getRandomNumberExact` the `double` value is the quotient of
`rand * (max - min + 1) + min * (RAND_MAX + 1)` by `RAND_MAX + 1`, and the
conversion to `int` keeps its integral part, rounding toward zero
(`Int.tdiv`), provided that part is an `int`.  On other inputs (rounding in
the `double` operations, `int` overflow) the embedding gives no result. -/
def getRandomNumber (bits : Nat) (rand min max : Int) : Option Int :=
  if getRandomNumberExact bits rand min max then
    let n := Int.tdiv (rand * (max - min + 1) + min * (RAND_MAX bits + 1)) (RAND_MAX bits + 1)
    if -2147483648 ≤ n ∧ n ≤ 2147483647 then some n else none
  else none

/-- `Deck::getRandomNumber` of `blackjack.cpp`: the same function body. -/
def Deck.getRandomNumber (bits : Nat) (rand min max : Int) : Option Int :=
  if getRandomNumberExact bits rand min max then
    let n := Int.tdiv (rand * (max - min + 1) + min * (RAND_MAX bits + 1)) (RAND_MAX bits + 1)
    if -2147483648 ≤ n ∧ n ≤ 2147483647 then some n else none
  else none

/-- Error kinds of the deal operation in the specification. -/
inductive DeckError where
  | DeckExhausted
deriving DecidableEq, Repr

/-- The deal operation as the specification words it: a cursor owned by the
deck, checked against the cards: the next card and the advanced cursor, or
the failure `DeckExhausted` once the cards have been dealt. -/
def Deck.specDeal (d : Deck) (cursor : Nat) : Except DeckError (Card × Nat) :=
  match d.m_deck[cursor]? with
  | some card => Except.ok (card, cursor + 1)
  | none => Except.error DeckError.DeckExhausted

/-- `Deck::dealCard` on the storage itself: `return *ptr++` returns a
`Card` at every call, since the function has no other way to return.  Inside
the array the cell read is a card of the deck.  Once the pointer has left
the array the cell read is storage that follows the array: `past k` stands
for what the storage `k` cells behind the array yields when it is read as a
`Card`.  The source puts nothing there and the language leaves the read
undefined, so `past` is a parameter about which nothing is assumed (a rank
outside 2 to 14 stands for a bit pattern that is no rank). -/
def Deck.dealCardStorage (d : Deck) (past : Nat → Card) (ptr : Nat) : Card × Nat :=
  match d.m_deck[ptr]? with
  | some card => (card, ptr + 1)
  | none => (past (ptr - d.m_deck.length), ptr + 1)

/-! ## Monster Hunter: creatures -/

/-- The base class `Creature`. -/
structure Creature where
  m_name : String
  m_symbol : Char
  m_health : Int
  m_gold : Int
  m_attackDamage : Int
deriving DecidableEq, Repr

/-- The constructor of `Creature` with all its default arguments. -/
def Creature.default : Creature := ⟨" ", 'a', 0, 0, 0⟩

/-- `Creature::addGold`. -/
def Creature.addGold (c : Creature) (gold : Int) : Creature :=
  { c with m_gold := c.m_gold + gold }

/-- `Creature::reduceHealth`. -/
def Creature.reduceHealth (c : Creature) (damage : Int) : Creature :=
  { c with m_health := c.m_health - damage }

/-- `Creature::getHealth`. -/
def Creature.getHealth (c : Creature) : Int := c.m_health

/-- `Creature::getGold`. -/
def Creature.getGold (c : Creature) : Int := c.m_gold

/-- `Creature::getAttackDamage`. -/
def Creature.getAttackDamage (c : Creature) : Int := c.m_attackDamage

/-- `Creature::isDead`. -/
def Creature.isDead (c : Creature) : Bool := decide (c.m_health ≤ 0)

/-- The class `Player`: a `Creature` with a level. -/
structure Player extends Creature where
  m_level : Int
deriving DecidableEq, Repr

/-- The constructor of `Player`: `Creature(name, '@', 10, 1, 0)` and the level. -/
def Player.new (name : String) (level : Int) : Player :=
  { m_name := name, m_symbol := '@', m_health := 10, m_attackDamage := 1, m_gold := 0,
    m_level := level }

/-- `Player::levelUp`: `++m_level; ++m_attackDamage`. -/
def Player.levelUp (p : Player) : Player :=
  { p with m_level := p.m_level + 1, m_attackDamage := p.m_attackDamage + 1 }

/-- `Player::getLevel`. -/
def Player.getLevel (p : Player) : Int := p.m_level

/-- `Player::hasWon`. -/
def Player.hasWon (p : Player) : Bool := decide (p.m_level = 20)

/-- `Creature::addGold` on the base part of a player. -/
def Player.addGold (p : Player) (gold : Int) : Player :=
  { p with toCreature := p.toCreature.addGold gold }

/-- `Creature::reduceHealth` on the base part of a player. -/
def Player.reduceHealth (p : Player) (damage : Int) : Player :=
  { p with toCreature := p.toCreature.reduceHealth damage }

/-- The class `Monster`: a `Creature` and nothing more. -/
structure Monster extends Creature where
deriving DecidableEq, Repr

/-- Underlying value of `Monster::DRAGON`. -/
def Monster.DRAGON : Nat := 0
/-- Underlying value of `Monster::ORC`. -/
def Monster.ORC : Nat := 1
/-- Underlying value of `Monster::SLIME`. -/
def Monster.SLIME : Nat := 2
/-- Underlying value of `Monster::MAX_TYPES`. -/
def Monster.MAX_TYPES : Nat := 3

/-- The struct `Monster::MonsterData`. -/
structure Monster.MonsterData where
  name : String
  symbol : Char
  health : Int
  attackDamage : Int
  gold : Int
deriving DecidableEq, Repr

/-- The static table `Monster::monsterData`. -/
def Monster.monsterData : List Monster.MonsterData :=
  [ ⟨"dragon", 'D', 20, 4, 100⟩,
    ⟨"orc", 'o', 4, 2, 25⟩,
    ⟨"slime", 's', 1, 1, 10⟩ ]

/-- The default constructor of `Monster`. -/
def Monster.default : Monster := ⟨Creature.default⟩

/-- The constructor `Monster(MonsterType type)`: the creature described by
`monsterData[type]`; a `type` outside the table has no entry to read. -/
def Monster.new (type : Nat) : Option Monster :=
  match Monster.monsterData[type]? with
  | some data =>
    some ⟨{ m_name := data.name, m_symbol := data.symbol, m_health := data.health,
            m_attackDamage := data.attackDamage, m_gold := data.gold }⟩
  | none => none

/-- `Monster::getRandomMonster`, given the value `random` that its call of
`getRandomNumber(0, MAX_TYPES - 1)` returns. -/
def Monster.getRandomMonster (random : Int) : Option Monster :=
  if 0 ≤ random then Monster.new random.toNat else none

/-! ## Monster Hunter: the game -/

/-- The class `Game`. -/
structure Game where
  player : Player
  monster : Monster
deriving DecidableEq, Repr

/-- The constructor `Game::Game`: both members default-constructed, then
the name read from the input is stored in the player. -/
def Game.new (playerName : String) : Game :=
  { player := { Player.new " " 1 with m_name := playerName }, monster := Monster.default }

/-- `Game::run`, given the value `random` that its call of
`getRandomNumber(1, 100)` returns. -/
def Game.run (random : Int) : Bool := decide (random ≤ 50)

/-- `Game::attackMonster`. -/
def Game.attackMonster (g : Game) : Game :=
  { g with monster := ⟨g.monster.toCreature.reduceHealth g.player.getAttackDamage⟩ }

/-- `Game::attackPlayer`. -/
def Game.attackPlayer (g : Game) : Game :=
  { g with player := g.player.reduceHealth g.monster.getAttackDamage }

/-- `Game::playerKilled`: the value returned; the state is not changed. -/
def Game.playerKilled (g : Game) : Bool :=
  if g.player.isDead then true else false

/-- `Game::monsterKilled`: the value returned and the state after the call. -/
def Game.monsterKilled (g : Game) : Bool × Game :=
  if g.monster.isDead then
    (true, { g with player := (g.player.levelUp).addGold g.monster.getGold })
  else (false, g)

/-- The level that `Game::monsterKilled` writes in its message
"You are now level ...": the value of `player.getLevel()` at the place of
that statement, which stands before `player.levelUp()`.  Nothing is written
when the monster is not dead. -/
def Game.monsterKilledLevelWritten (g : Game) : Option Int :=
  if g.monster.isDead then some g.player.getLevel else none

/-- The ways in which `fightMonster` is left: `return` after
`monsterKilled()`, `return` after `playerKilled()`, and the end of the loop
once `fight` is false. -/
inductive Game.Exit where
  | monsterKilled
  | playerKilled
  | fled
deriving DecidableEq, Repr

/-- What one iteration of the loop of `fightMonster` leads to: the next
iteration, or the end of the function. -/
inductive Game.Body where
  | again (g : Game)
  | leave (g : Game) (how : Game.Exit)
deriving DecidableEq, Repr

/-- The state carried by the outcome of an iteration. -/
def Game.Body.game : Game.Body → Game
  | Game.Body.again g => g
  | Game.Body.leave g _ => g

/-- Body of the `while (fight)` loop of `Game::fightMonster`, for the
character `decision` just read; `randoms` are the values still to be
returned by `getRandomNumber`, and the result carries those left. -/
def Game.fightBody (g : Game) (decision : Char) (randoms : List Int) :
    Option (Game.Body × List Int) :=
  if decision = 'f' then
    let g1 := g.attackMonster
    let k := g1.monsterKilled
    if k.1 then some (Game.Body.leave k.2 Game.Exit.monsterKilled, randoms)
    else
      let g2 := k.2.attackPlayer
      if g2.playerKilled then some (Game.Body.leave g2 Game.Exit.playerKilled, randoms)
      else some (Game.Body.again g2, randoms)
  else if decision = 'r' then
    match randoms with
    | [] => none
    | random :: randoms1 =>
      let fight := !(Game.run random)
      if fight then
        let g1 := g.attackPlayer
        if g1.playerKilled then some (Game.Body.leave g1 Game.Exit.playerKilled, randoms1)
        else some (Game.Body.again g1, randoms1)
      else some (Game.Body.leave g Game.Exit.fled, randoms1)
  else some (Game.Body.again g, randoms)

/-- State in which `fightMonster` is left. -/
structure Game.Fought where
  how : Game.Exit
  game : Game
  cin : List Char
  randoms : List Int
deriving DecidableEq, Repr

/-- `Game::fightMonster`: each iteration reads one character. -/
def Game.fightMonster (g : Game) : List Char → List Int → Option Game.Fought
  | [], _ => none
  | decision :: cin, randoms =>
    match g.fightBody decision randoms with
    | none => none
    | some (Game.Body.leave g1 how, randoms1) => some ⟨how, g1, cin, randoms1⟩
    | some (Game.Body.again g1, randoms1) => Game.fightMonster g1 cin randoms1

/-- Condition of the `do ... while` loop of `Game::play`. -/
def Game.playAgain (g : Game) : Bool :=
  !g.player.isDead && !g.player.hasWon

/-- Body of the `do ... while` loop of `Game::play`: a random monster
becomes the current one and is fought. -/
def Game.playBody (g : Game) (cin : List Char) (randoms : List Int) : Option Game.Fought :=
  match randoms with
  | [] => none
  | random :: randoms1 =>
    match Monster.getRandomMonster random with
    | none => none
    | some m => Game.fightMonster { g with monster := m } cin randoms1

/-- State in which `play` returns; `wonReport` tells whether the final
`if (player.hasWon())` writes its message. -/
structure Game.Played where
  last : Game.Exit
  game : Game
  cin : List Char
  randoms : List Int
  wonReport : Bool
deriving DecidableEq, Repr

/-- `Game::play`, at most `fuel` iterations of its loop. -/
def Game.play : Nat → Game → List Char → List Int → Option Game.Played
  | 0, _, _, _ => none
  | fuel + 1, g, cin, randoms =>
    match g.playBody cin randoms with
    | none => none
    | some r =>
      if r.game.playAgain then Game.play fuel r.game r.cin r.randoms
      else some ⟨r.how, r.game, r.cin, r.randoms, r.game.player.hasWon⟩

/-- Points of a session between which the state is observed: before the
first monster, inside the loop of `fightMonster`, and after `fightMonster`
has returned. -/
inductive Game.Phase where
  | start
  | fighting
  | fought
deriving DecidableEq, Repr

/-- States that a session of `play` started by the player `playerName` can
be in: the constructed game; the game once a monster has been made current
(unconditionally the first time, after `playAgain` later on); and the game
after each iteration of the loop of `fightMonster`. -/
inductive Game.Reach (playerName : String) : Game.Phase → Game → Prop where
  | start : Game.Reach playerName Game.Phase.start (Game.new playerName)
  | spawnFirst (g : Game) (random : Int) (m : Monster) :
      Game.Reach playerName Game.Phase.start g →
      Monster.getRandomMonster random = some m →
      Game.Reach playerName Game.Phase.fighting { g with monster := m }
  | spawnNext (g : Game) (random : Int) (m : Monster) :
      Game.Reach playerName Game.Phase.fought g →
      g.playAgain = true →
      Monster.getRandomMonster random = some m →
      Game.Reach playerName Game.Phase.fighting { g with monster := m }
  | again (g g1 : Game) (decision : Char) (randoms randoms1 : List Int) :
      Game.Reach playerName Game.Phase.fighting g →
      g.fightBody decision randoms = some (Game.Body.again g1, randoms1) →
      Game.Reach playerName Game.Phase.fighting g1
  | leave (g g1 : Game) (how : Game.Exit) (decision : Char) (randoms randoms1 : List Int) :
      Game.Reach playerName Game.Phase.fighting g →
      g.fightBody decision randoms = some (Game.Body.leave g1 how, randoms1) →
      Game.Reach playerName Game.Phase.fought g1

/-! ## Blackjack: card values (C1) -/

/-- Every cell written by the constructor loop holds a rank between 2 and
14. -/
theorem fill_rank_range : ∀ (n rank suit : Nat) (c : Card),
    c ∈ Deck.fill n rank suit → 2 ≤ c.m_rank ∧ c.m_rank ≤ 14
  | 0, _, _, c, h => by simp [Deck.fill] at h
  | n + 1, rank, suit, c, h => by
    simp only [Deck.fill, List.mem_cons] at h
    rcases h with h | h
    · subst h
      have := Nat.mod_lt rank (show 13 > 0 by decide)
      constructor <;> simp only <;> omega
    · exact fill_rank_range n _ _ c h

/-- A card whose rank is one of the thirteen ranks is worth between 2 and 11. -/
theorem getCardValue_range (c : Card) (h2 : 2 ≤ c.m_rank) (h14 : c.m_rank ≤ 14) :
    2 ≤ c.getCardValue ∧ c.getCardValue ≤ 11 := by
  obtain ⟨r, s⟩ := c
  simp only at h2 h14
  interval_cases r <;> simp [Card.getCardValue]

/-- C1: `getCardValue` returns the numeric rank for the ranks 2 to 10, 10
for Jack, Queen and King and 11 for Ace; the deck built by the constructor
has 52 cards, each of them worth between 2 and 11, so that the fallback
value 0 is returned for none of them. -/
theorem C1_getCardValue :
    (∀ c : Card, 2 ≤ c.m_rank → c.m_rank ≤ 10 → c.getCardValue = (c.m_rank : Int)) ∧
    (∀ c : Card, c.m_rank = Card.RANK_JACK ∨ c.m_rank = Card.RANK_QUEEN ∨
        c.m_rank = Card.RANK_KING → c.getCardValue = 10) ∧
    (∀ c : Card, c.m_rank = Card.RANK_ACE → c.getCardValue = 11) ∧
    Deck.new.m_deck.length = 52 ∧
    (∀ c ∈ Deck.new.m_deck,
      2 ≤ c.getCardValue ∧ c.getCardValue ≤ 11 ∧ c.getCardValue ≠ 0) := by
  refine ⟨?_, ?_, ?_, by decide, ?_⟩
  · rintro ⟨r, s⟩ h2 h10
    simp only at h2 h10
    interval_cases r <;> simp [Card.getCardValue]
  · rintro ⟨r, s⟩ h
    simp only [Card.RANK_JACK, Card.RANK_QUEEN, Card.RANK_KING] at h
    rcases h with h | h | h <;> subst h <;> simp [Card.getCardValue]
  · rintro ⟨r, s⟩ h
    simp only [Card.RANK_ACE] at h
    subst h
    simp [Card.getCardValue]
  · intro c hc
    have hr := fill_rank_range 52 0 0 c hc
    have hv := getCardValue_range c hr.1 hr.2
    exact ⟨hv.1, hv.2, by omega⟩

/-- The seven of clubs is worth 7, the queen of hearts 10 and the ace of
spades 11. -/
theorem C1_getCardValue_witness :
    Card.getCardValue ⟨7, Card.SUIT_CLUB⟩ = 7 ∧
    Card.getCardValue ⟨Card.RANK_QUEEN, Card.SUIT_HEART⟩ = 10 ∧
    Card.getCardValue ⟨Card.RANK_ACE, Card.SUIT_SPADE⟩ = 11 :=
  ⟨C1_getCardValue.1 ⟨7, Card.SUIT_CLUB⟩ (by decide) (by decide),
   C1_getCardValue.2.1 ⟨Card.RANK_QUEEN, Card.SUIT_HEART⟩ (Or.inr (Or.inl rfl)),
   C1_getCardValue.2.2.1 ⟨Card.RANK_ACE, Card.SUIT_SPADE⟩ rfl⟩

/-! ## Blackjack: shuffling (C2) -/

/-- Exchanging the contents of two cells of a list keeps the number of
occurrences of every value. -/
theorem count_swap_cells {α : Type} [DecidableEq α] (l : List α) (i j : Nat)
    (hi : i < l.length) (hj : j < l.length) (x : α) :
    ((l.set i l[j]).set j l[i]).count x = l.count x := by
  rw [List.count_set _ _ _ _ (by simpa using hj), List.count_set _ _ _ _ hi]
  simp only [List.getElem_set]
  have h1 := List.count_pos_iff.mpr (List.getElem_mem hi)
  have h2 := List.count_pos_iff.mpr (List.getElem_mem hj)
  by_cases hij : i = j
  · subst hij
    by_cases hx : l[i] = x
    · subst hx; simp
    · simp [hx]
  · by_cases hx : l[i] = x <;> by_cases hy : l[j] = x <;> simp [hij, hx, hy] <;>
      (subst hx; omega)

/-- A successful `swapCard` permutes the deck. -/
theorem swapCard_perm (d d1 : Deck) (a b : Nat) (h : d.swapCard a b = some d1) :
    d1.m_deck.Perm d.m_deck := by
  unfold Deck.swapCard at h
  cases ha : d.m_deck[a]? with
  | none => simp [ha] at h
  | some ca =>
    cases hb : d.m_deck[b]? with
    | none => simp [ha, hb] at h
    | some cb =>
      simp only [ha, hb, Option.some.injEq] at h
      obtain ⟨ha1, ha2⟩ := List.getElem?_eq_some_iff.mp ha
      obtain ⟨hb1, hb2⟩ := List.getElem?_eq_some_iff.mp hb
      subst h
      rw [List.perm_iff_count]
      intro x
      subst ha2
      subst hb2
      exact count_swap_cells d.m_deck a b ha1 hb1 x

/-- `swapCard` has a result when both positions lie in the array. -/
theorem swapCard_some (d : Deck) (a b : Nat) (ha : a < d.m_deck.length)
    (hb : b < d.m_deck.length) : ∃ d1, d.swapCard a b = some d1 := by
  unfold Deck.swapCard
  rw [List.getElem?_eq_getElem ha, List.getElem?_eq_getElem hb]
  exact ⟨_, rfl⟩

/-- Swapping a cell with itself leaves the deck as it is. -/
theorem swapCard_self (d : Deck) (a : Nat) (ha : a < d.m_deck.length) :
    d.swapCard a a = some d := by
  obtain ⟨l⟩ := d
  simp only [Deck.swapCard, List.getElem?_eq_getElem ha]
  simp only [Option.some.injEq, Deck.mk.injEq, List.set_set]
  apply List.ext_getElem (by simp)
  intro n h1 h2
  rw [List.getElem_set]
  split
  · next h => subst h; rfl
  · rfl

/-- Whatever the shuffle loop returns is a permutation of the deck it
started from. -/
theorem shuffleFrom_perm : ∀ (n i : Nat) (randoms : List Nat) (d d1 : Deck) (rest : List Nat),
    Deck.shuffleFrom n i randoms d = some (d1, rest) → d1.m_deck.Perm d.m_deck
  | 0, _, randoms, d, d1, rest, h => by
    simp only [Deck.shuffleFrom, Option.some.injEq, Prod.mk.injEq] at h
    rw [h.1]
  | n + 1, i, [], d, d1, rest, h => by simp [Deck.shuffleFrom] at h
  | n + 1, i, s :: randoms, d, d1, rest, h => by
    simp only [Deck.shuffleFrom] at h
    cases hs : d.swapCard i s with
    | none => simp [hs] at h
    | some d2 =>
      simp only [hs] at h
      exact (shuffleFrom_perm n (i + 1) randoms d2 d1 rest h).trans (swapCard_perm d d2 i s hs)

/-- The shuffle loop has a result when enough swap indices are supplied
and each of them is a position of the array. -/
theorem shuffleFrom_some : ∀ (n i : Nat) (randoms : List Nat) (d : Deck),
    i + n ≤ d.m_deck.length → n ≤ randoms.length →
    (∀ s ∈ randoms, s < d.m_deck.length) →
    ∃ d1 rest, Deck.shuffleFrom n i randoms d = some (d1, rest)
  | 0, _, randoms, d, _, _, _ => ⟨d, randoms, rfl⟩
  | n + 1, i, [], d, _, hlen, _ => by simp at hlen
  | n + 1, i, s :: randoms, d, hin, hlen, hs => by
    obtain ⟨d1, h1⟩ := swapCard_some d i s (by omega) (hs s (by simp))
    have hl : d1.m_deck.length = d.m_deck.length := (swapCard_perm d d1 i s h1).length_eq
    obtain ⟨d2, rest, h2⟩ := shuffleFrom_some n (i + 1) randoms d1
      (by omega) (by simpa using hlen)
      (fun t ht => by rw [hl]; exact hs t (by simp [ht]))
    exact ⟨d2, rest, by simp [Deck.shuffleFrom, h1, h2]⟩

/-- Whatever `shuffleDeck` returns is a permutation of the deck it was
applied to. -/
theorem shuffleDeck_perm (d d1 : Deck) (randoms : List Nat)
    (h : d.shuffleDeck randoms = some d1) : d1.m_deck.Perm d.m_deck := by
  unfold Deck.shuffleDeck at h
  cases hs : Deck.shuffleFrom d.m_deck.length 0 randoms d with
  | none => simp [hs] at h
  | some r =>
    obtain ⟨d2, rest⟩ := r
    simp only [hs, Option.some.injEq] at h
    subst h
    exact shuffleFrom_perm _ _ _ _ _ _ hs

/-- In the deck built by the constructor every pair of a rank and a suit
occurs once. -/
theorem new_count : ∀ rank < 15, ∀ suit < 4, 2 ≤ rank →
    Deck.new.m_deck.count ⟨rank, suit⟩ = 1 := by
  decide

/-- The cards of the deck built by the constructor are pairwise distinct. -/
theorem new_nodup : Deck.new.m_deck.Nodup := by
  decide

/-- C2: for every sequence of 52 swap indices between 0 and 51,
`shuffleDeck` applied to the freshly constructed deck returns a deck that is
a permutation of it, in which each of the 52 pairs of a rank and a suit
occurs exactly once; a swap of a position with itself changes nothing. -/
theorem C2_shuffleDeck_permutation (randoms : List Nat) (hlen : randoms.length = 52)
    (hrange : ∀ s ∈ randoms, s ≤ 51) :
    ∃ d : Deck, Deck.new.shuffleDeck randoms = some d ∧
      d.m_deck.Perm Deck.new.m_deck ∧
      d.m_deck.length = 52 ∧
      (∀ rank suit : Nat, 2 ≤ rank → rank ≤ 14 → suit ≤ 3 →
        d.m_deck.count ⟨rank, suit⟩ = 1) ∧
      (∀ a : Nat, a ≤ 51 → d.swapCard a a = some d) := by
  have h52 : Deck.new.m_deck.length = 52 := by decide
  obtain ⟨d1, rest, h1⟩ := shuffleFrom_some Deck.new.m_deck.length 0 randoms Deck.new
    (by omega) (by omega) (fun s hs => by have := hrange s hs; omega)
  have hsh : Deck.new.shuffleDeck randoms = some d1 := by
    simp [Deck.shuffleDeck, h1]
  have hp := shuffleDeck_perm Deck.new d1 randoms hsh
  have hl : d1.m_deck.length = 52 := by rw [hp.length_eq, h52]
  refine ⟨d1, hsh, hp, hl, ?_, ?_⟩
  · intro rank suit h2 h14 h3
    rw [hp.count_eq]
    exact new_count rank (by omega) suit (by omega) h2
  · intro a ha
    exact swapCard_self d1 a (by omega)

/-- The shuffle in which every swap index is 0 returns a permutation of the
constructed deck. -/
theorem C2_shuffleDeck_permutation_witness :
    ∃ d : Deck, Deck.new.shuffleDeck (List.replicate 52 0) = some d ∧
      d.m_deck.Perm Deck.new.m_deck ∧
      d.m_deck.length = 52 ∧
      (∀ rank suit : Nat, 2 ≤ rank → rank ≤ 14 → suit ≤ 3 →
        d.m_deck.count ⟨rank, suit⟩ = 1) ∧
      (∀ a : Nat, a ≤ 51 → d.swapCard a a = some d) :=
  C2_shuffleDeck_permutation (List.replicate 52 0) (by decide) (by decide)

/-! ## Blackjack: dealing (C3, C10) -/

/-- As long as the pointer stays inside the array, `n` calls of `dealCard`
return the `n` cells from the pointer on and move the pointer by `n`. -/
theorem dealCards_inside (d : Deck) : ∀ (n ptr : Nat), ptr + n ≤ d.m_deck.length →
    d.dealCards n ptr = (((d.m_deck.drop ptr).take n).map some, ptr + n)
  | 0, ptr, _ => by simp [Deck.dealCards]
  | n + 1, ptr, h => by
    have hlt : ptr < d.m_deck.length := by omega
    have ih := dealCards_inside d n (ptr + 1) (by omega)
    have hdrop : d.m_deck.drop ptr = d.m_deck[ptr] :: d.m_deck.drop (ptr + 1) :=
      List.drop_eq_getElem_cons hlt
    simp only [Deck.dealCards, Deck.dealCard, ih, hdrop, List.take_succ_cons, List.map_cons,
      List.getElem?_eq_getElem hlt, Prod.mk.injEq, true_and]
    omega

/-- C3: on every shuffled deck, for every k from 1 to 52 the k-th call of
`dealCard` (made at the pointer left by the k-1 calls before it, which is
k-1) returns the card at position k-1 and leaves the pointer at k; the 52
calls return the 52 cells of the deck in order, these are pairwise distinct,
and every call advances the pointer by exactly one. -/
theorem C3_dealCard_sequence (randoms : List Nat) (d : Deck)
    (hd : Blackjack.new randoms = some d) :
    (∀ k : Nat, 1 ≤ k → k ≤ 52 →
      ∃ card : Card, d.m_deck[k - 1]? = some card ∧
        (d.dealCards (k - 1) 0).2 = k - 1 ∧
        d.dealCard (d.dealCards (k - 1) 0).2 = (some card, k)) ∧
    d.dealCards 52 0 = (d.m_deck.map some, 52) ∧
    d.m_deck.Nodup ∧
    (∀ ptr : Nat, (d.dealCard ptr).2 = ptr + 1) := by
  have hp : d.m_deck.Perm Deck.new.m_deck := shuffleDeck_perm Deck.new d randoms hd
  have hl : d.m_deck.length = 52 := by
    rw [hp.length_eq]
    decide
  refine ⟨?_, ?_, hp.nodup_iff.mpr new_nodup, fun _ => rfl⟩
  · intro k h1 h52
    have hlt : k - 1 < d.m_deck.length := by omega
    have hk := dealCards_inside d (k - 1) 0 (by omega)
    refine ⟨d.m_deck[k - 1], List.getElem?_eq_getElem hlt, by simp [hk], ?_⟩
    simp only [hk, Deck.dealCard, zero_add, List.getElem?_eq_getElem hlt, Prod.mk.injEq,
      true_and]
    omega
  · have hk := dealCards_inside d 52 0 (by omega)
    rw [hk, List.drop_zero, List.take_of_length_le (by omega)]

/-- The shuffle whose swap indices are the positions themselves returns the
constructed deck, and the 52 calls of `dealCard` return its cells in order. -/
theorem C3_dealCard_sequence_witness :
    Blackjack.new (List.range 52) = some Deck.new ∧
    Deck.new.dealCards 52 0 = (Deck.new.m_deck.map some, 52) :=
  ⟨by decide, (C3_dealCard_sequence (List.range 52) Deck.new (by decide)).2.1⟩

/-- Inside the array the two readings of `dealCard` agree: the card found
under the pointer is the card returned, and the pointer moves alike. -/
theorem dealCard_storage (d : Deck) (past : Nat → Card) (ptr : Nat) (card : Card)
    (h : (d.dealCard ptr).1 = some card) :
    d.dealCardStorage past ptr = (card, ptr + 1) ∧ (d.dealCard ptr).2 = ptr + 1 := by
  simp only [Deck.dealCard] at h
  simp [Deck.dealCardStorage, Deck.dealCard, h]

/-- C10 as stated fails on the constructed deck: after 52 deals the
specification's `deal` fails with `DeckExhausted`, whereas the 53rd call of
`dealCard` does not fail: it returns a `Card`, the value read from the
storage behind the array (here a cell of zeros, and likewise whatever that
storage holds), and moves the pointer on to 53. -/
theorem C10_dealCard_53rd_counterexample :
    Deck.new.specDeal 52 = Except.error DeckError.DeckExhausted ∧
    Deck.new.dealCardStorage (fun _ => ⟨0, 0⟩) 52 = (⟨0, 0⟩, 53) ∧
    (∀ past : Nat → Card, Deck.new.dealCardStorage past 52 = (past 0, 53)) := by
  refine ⟨rfl, by decide, fun past => ?_⟩
  have hnone : Deck.new.m_deck[52]? = none := by decide
  have hlen : Deck.new.m_deck.length = 52 := by decide
  simp [Deck.dealCardStorage, hnone, hlen]

/-- C10, amended: on every deck of 52 cards each of the first 52 calls of
`dealCard` returns the card under the cursor and advances the cursor, as the
specification's `deal` does.  `dealCard` has no bounds check and no failure:
where `deal` fails with `DeckExhausted`, at the 53rd call, `dealCard` returns
a `Card` all the same, the value read from the storage behind the array,
which is no cell of the deck and which the source does not determine, and
advances the cursor to 53. -/
theorem C10_dealCard_unchecked (d : Deck) (h52 : d.m_deck.length = 52)
    (past : Nat → Card) :
    (∀ cursor : Nat, cursor < 52 →
      ∃ card : Card, d.m_deck[cursor]? = some card ∧
        d.specDeal cursor = Except.ok (card, cursor + 1) ∧
        d.dealCardStorage past cursor = (card, cursor + 1) ∧
        d.dealCard cursor = (some card, cursor + 1)) ∧
    d.specDeal 52 = Except.error DeckError.DeckExhausted ∧
    d.dealCardStorage past 52 = (past 0, 53) ∧
    d.dealCard 52 = (none, 53) := by
  have hnone : d.m_deck[52]? = none := List.getElem?_eq_none (by omega)
  refine ⟨?_, ?_, ?_, ?_⟩
  · intro cursor hc
    have hlt : cursor < d.m_deck.length := by omega
    have hget : d.m_deck[cursor]? = some d.m_deck[cursor] := List.getElem?_eq_getElem hlt
    exact ⟨d.m_deck[cursor], hget, by simp only [Deck.specDeal, hget],
      by simp only [Deck.dealCardStorage, hget], by simp only [Deck.dealCard, hget]⟩
  · simp only [Deck.specDeal, hnone]
  · simp [Deck.dealCardStorage, hnone, h52]
  · simp [Deck.dealCard, hnone]

/-- On the constructed deck, with a cell of zeros behind the array, the
53rd call of `dealCard` returns that cell and leaves the pointer at 53. -/
theorem C10_dealCard_unchecked_witness :
    Deck.new.m_deck.length = 52 ∧
    Deck.new.dealCardStorage (fun _ => ⟨0, 0⟩) 52 = ((fun _ => ⟨0, 0⟩) 0, 53) :=
  ⟨by decide, (C10_dealCard_unchecked Deck.new (by decide) (fun _ => ⟨0, 0⟩)).2.2.1⟩

/-! ## Blackjack: the round (C4, C5) -/

/-- What `getPlayerChoice` returns is the first `h` or `s` of the input;
the characters before it are neither, and the input after it is left
unread, whatever it is. -/
theorem getPlayerChoice_some : ∀ (cin : List Char) (choice : Char) (rest : List Char),
    Blackjack.getPlayerChoice cin = some (choice, rest) →
    ∃ skipped : List Char, cin = skipped ++ choice :: rest ∧
      (∀ x ∈ skipped, x ≠ 'h' ∧ x ≠ 's') ∧ (choice = 'h' ∨ choice = 's') ∧
      ∀ more : List Char,
        Blackjack.getPlayerChoice (skipped ++ choice :: more) = some (choice, more)
  | [], _, _, h => by simp [Blackjack.getPlayerChoice] at h
  | c :: cin, choice, rest, h => by
    by_cases hc : c ≠ 'h' ∧ c ≠ 's'
    · rw [Blackjack.getPlayerChoice, if_pos hc] at h
      obtain ⟨skipped, h1, h2, h3, h4⟩ := getPlayerChoice_some cin choice rest h
      refine ⟨c :: skipped, by simp [h1], ?_, h3, ?_⟩
      · intro x hx
        rcases List.mem_cons.mp hx with hx | hx
        · subst hx; exact hc
        · exact h2 x hx
      · intro more
        rw [List.cons_append, Blackjack.getPlayerChoice, if_pos hc]
        exact h4 more
    · rw [Blackjack.getPlayerChoice, if_neg hc] at h
      simp only [Option.some.injEq, Prod.mk.injEq] at h
      obtain ⟨h1, h2⟩ := h
      subst h1
      subst h2
      refine ⟨[], rfl, by simp, ?_, ?_⟩
      · by_contra hn
        exact hc ⟨fun e => hn (Or.inl e), fun e => hn (Or.inr e)⟩
      · intro more
        rw [List.nil_append, Blackjack.getPlayerChoice, if_neg hc]

/-- What the player loop returns: it has read a prefix `consumed` of the
input that ends with the last choice, it has dealt one card for each `h` of
that prefix, it stops on `s` without a bust and on an `h` that takes the
total above 21 with one, and the input after `consumed` plays no part. -/
theorem playerLoop_some (d : Deck) : ∀ (fuel : Nat) (playerTotal : Int) (ptr : Nat)
    (cin : List Char) (t : Blackjack.Turn),
    Blackjack.playerLoop d fuel playerTotal ptr cin = some t →
    ∃ consumed : List Char, cin = consumed ++ t.cin ∧
      t.ptr = ptr + consumed.count 'h' ∧
      consumed.getLast? = some t.choice ∧
      (t.bust = true → t.choice = 'h' ∧ 21 < t.playerTotal) ∧
      (t.bust = false → t.choice = 's') ∧
      ∀ more : List Char,
        Blackjack.playerLoop d fuel playerTotal ptr (consumed ++ more) =
          some { t with cin := more }
  | 0, _, _, _, _, h => by simp [Blackjack.playerLoop] at h
  | fuel + 1, playerTotal, ptr, cin, t, h => by
    rw [Blackjack.playerLoop] at h
    cases hg : Blackjack.getPlayerChoice cin with
    | none => simp [hg] at h
    | some r =>
      obtain ⟨choice, cin1⟩ := r
      obtain ⟨skipped, hcin, hskip, hchoice, hmore⟩ := getPlayerChoice_some cin choice cin1 hg
      have hcount : skipped.count 'h' = 0 :=
        List.count_eq_zero.mpr (fun hm => (hskip 'h' hm).1 rfl)
      simp only [hg] at h
      by_cases hs : choice = 's'
      · subst hs
        simp only [if_true, Option.some.injEq] at h
        subst h
        refine ⟨skipped ++ ['s'], by simp [hcin], ?_, by simp, by simp, by simp, ?_⟩
        · simp [List.count_append, hcount]
        · intro more
          rw [Blackjack.playerLoop]
          simp [hmore more]
      · have hh : choice = 'h' := hchoice.resolve_right hs
        subst hh
        simp only [if_neg hs] at h
        cases hc : d.m_deck[ptr]? with
        | none => simp [Deck.dealCard, hc] at h
        | some card =>
          simp only [Deck.dealCard, hc] at h
          by_cases hb : playerTotal + card.getCardValue > 21
          · simp only [if_pos hb, Option.some.injEq] at h
            subst h
            refine ⟨skipped ++ ['h'], by simp [hcin], ?_, by simp, ?_, by simp, ?_⟩
            · simp [List.count_append, hcount]
            · intro _
              exact ⟨rfl, hb⟩
            · intro more
              rw [Blackjack.playerLoop]
              simp [hmore more, Deck.dealCard, hc, hb]
          · simp only [if_neg hb] at h
            obtain ⟨consumed, h1, h2, h3, h4, h5, h6⟩ :=
              playerLoop_some d fuel _ _ cin1 t h
            have hne : consumed ≠ [] := by
              intro he
              simp [he] at h3
            refine ⟨skipped ++ 'h' :: consumed, ?_, ?_, ?_, h4, h5, ?_⟩
            · rw [hcin, h1]
              simp
            · rw [h2]
              simp [List.count_append, hcount]
              omega
            · obtain ⟨x, xs, hx⟩ := List.exists_cons_of_ne_nil hne
              subst hx
              rw [List.getLast?_append, List.getLast?_cons_cons, h3]
              simp
            · intro more
              rw [Blackjack.playerLoop]
              have := hmore (consumed ++ more)
              simp only [List.append_assoc, List.cons_append]
              simp only [this, if_neg hs, Deck.dealCard, hc, if_neg hb]
              exact h6 more

/-- The fuel of the dealer loop plays no part once it exceeds the number
of cells left after the pointer: the loop deals a card at every iteration
but its last. -/
theorem dealerLoop_fuel (d : Deck) : ∀ (fuel fuel1 : Nat) (dealerTotal : Int) (ptr : Nat),
    ptr ≤ d.m_deck.length → d.m_deck.length < ptr + fuel → d.m_deck.length < ptr + fuel1 →
    Blackjack.dealerLoop d fuel dealerTotal ptr = Blackjack.dealerLoop d fuel1 dealerTotal ptr
  | 0, _, _, _, hp, hf, _ => by omega
  | _ + 1, 0, _, _, hp, _, hf1 => by omega
  | fuel + 1, fuel1 + 1, dealerTotal, ptr, hp, hf, hf1 => by
    rw [Blackjack.dealerLoop, Blackjack.dealerLoop]
    by_cases ht : dealerTotal < 17
    · simp only [if_pos ht, Deck.dealCard]
      cases hc : d.m_deck[ptr]? with
      | none => rfl
      | some card =>
        have hlt := (List.getElem?_eq_some_iff.mp hc).1
        exact dealerLoop_fuel d fuel fuel1 _ (ptr + 1) (by omega) (by omega) (by omega)
    · simp only [if_neg ht]

/-- The fuel of the player loop plays no part once it exceeds the number
of cells left after the pointer: the loop deals a card at every iteration
but its last. -/
theorem playerLoop_fuel (d : Deck) : ∀ (fuel fuel1 : Nat) (playerTotal : Int) (ptr : Nat)
    (cin : List Char),
    ptr ≤ d.m_deck.length → d.m_deck.length < ptr + fuel → d.m_deck.length < ptr + fuel1 →
    Blackjack.playerLoop d fuel playerTotal ptr cin =
      Blackjack.playerLoop d fuel1 playerTotal ptr cin
  | 0, _, _, _, _, hp, hf, _ => by omega
  | _ + 1, 0, _, _, _, hp, _, hf1 => by omega
  | fuel + 1, fuel1 + 1, playerTotal, ptr, cin, hp, hf, hf1 => by
    rw [Blackjack.playerLoop, Blackjack.playerLoop]
    cases hg : Blackjack.getPlayerChoice cin with
    | none => rfl
    | some q =>
      obtain ⟨choice, cin1⟩ := q
      simp only
      by_cases hs : choice = 's'
      · simp only [if_pos hs]
      · simp only [if_neg hs, Deck.dealCard]
        cases hc : d.m_deck[ptr]? with
        | none => rfl
        | some card =>
          have hlt := (List.getElem?_eq_some_iff.mp hc).1
          simp only
          by_cases hb : playerTotal + card.getCardValue > 21
          · simp only [if_pos hb]
          · simp only [if_neg hb]
            exact playerLoop_fuel d fuel fuel1 _ (ptr + 1) cin1 (by omega) (by omega) (by omega)

/-- The round, once the first three cells are known: the player loop from
the sum of the second and third, then either the bust or the dealer loop
from the value of the first. -/
theorem playBlackjack_unfold (d : Deck) (cin : List Char) (card0 card1 card2 : Card)
    (h0 : d.m_deck[0]? = some card0) (h1 : d.m_deck[1]? = some card1)
    (h2 : d.m_deck[2]? = some card2) :
    Blackjack.playBlackjack d cin =
      match Blackjack.playerLoop d (d.m_deck.length + 1)
          (card1.getCardValue + card2.getCardValue) 3 cin with
      | none => none
      | some t =>
        if t.bust then
          some ⟨false, t.playerTotal, card0.getCardValue, t.ptr, t.choice, t.cin, true⟩
        else
          match Blackjack.dealerLoop d (d.m_deck.length + 1) card0.getCardValue t.ptr with
          | none => none
          | some (dealerTotal1, ptr4) =>
            if dealerTotal1 > 21 then
              some ⟨true, t.playerTotal, dealerTotal1, ptr4, t.choice, t.cin, false⟩
            else
              some ⟨decide (t.playerTotal > dealerTotal1), t.playerTotal, dealerTotal1, ptr4,
                t.choice, t.cin, false⟩ := by
  have h1a : d.m_deck[0 + 1]? = some card1 := h1
  have h2a : d.m_deck[0 + 1 + 1]? = some card2 := h2
  simp only [Blackjack.playBlackjack, Deck.dealCard, h0, h1a, h2a, zero_add]

/-- A round that returns has dealt the first three cells, has run the
player loop from the sum of the second and third, and either ended there on
a bust or went through the dealer loop from the value of the first. -/
theorem playBlackjack_some (d : Deck) (cin : List Char) (r : Blackjack.Round)
    (h : Blackjack.playBlackjack d cin = some r) :
    ∃ (card0 card1 card2 : Card) (t : Blackjack.Turn),
      d.m_deck[0]? = some card0 ∧ d.m_deck[1]? = some card1 ∧ d.m_deck[2]? = some card2 ∧
      Blackjack.playerLoop d (d.m_deck.length + 1)
        (card1.getCardValue + card2.getCardValue) 3 cin = some t ∧
      r.playerTotal = t.playerTotal ∧ r.choice = t.choice ∧ r.cin = t.cin ∧
      r.bust = t.bust ∧
      (t.bust = true → r.win = false ∧ r.dealerTotal = card0.getCardValue ∧
        r.ptr = t.ptr) ∧
      (t.bust = false →
        Blackjack.dealerLoop d (d.m_deck.length + 1) card0.getCardValue t.ptr =
          some (r.dealerTotal, r.ptr) ∧
        r.win = if r.dealerTotal > 21 then true else decide (r.playerTotal > r.dealerTotal)) := by
  cases h0 : d.m_deck[0]? with
  | none => simp [Blackjack.playBlackjack, Deck.dealCard, h0] at h
  | some card0 =>
    cases h1 : d.m_deck[1]? with
    | none => simp [Blackjack.playBlackjack, Deck.dealCard, h0, h1] at h
    | some card1 =>
      cases h2 : d.m_deck[2]? with
      | none => simp [Blackjack.playBlackjack, Deck.dealCard, h0, h1, h2] at h
      | some card2 =>
        rw [playBlackjack_unfold d cin card0 card1 card2 h0 h1 h2] at h
        cases hp : Blackjack.playerLoop d (d.m_deck.length + 1)
            (card1.getCardValue + card2.getCardValue) 3 cin with
        | none => simp [hp] at h
        | some t =>
          simp only [hp] at h
          refine ⟨card0, card1, card2, t, rfl, rfl, rfl, hp, ?_⟩
          by_cases hb : t.bust = true
          · simp only [hb, if_true, Option.some.injEq] at h
            subst h
            simp [hb]
          · have hb1 : t.bust = false := by simpa using hb
            simp only [hb1, Bool.false_eq_true, if_false] at h
            cases hd : Blackjack.dealerLoop d (d.m_deck.length + 1)
                card0.getCardValue t.ptr with
            | none => simp [hd] at h
            | some q =>
              obtain ⟨dealerTotal1, ptr4⟩ := q
              simp only [hd] at h
              by_cases hw : dealerTotal1 > 21
              · simp only [if_pos hw, Option.some.injEq] at h
                subst h
                simp [hb1, hw]
              · simp only [if_neg hw, Option.some.injEq] at h
                subst h
                simp [hb1, hw]

/-- C4: when the player stands with total p (the player loop is left by
`break`) and the dealer loop ends with total d, `playBlackjack` returns:
win if d > 21, and otherwise win exactly when p > d; a tie with d at most 21
is a loss. -/
theorem C4_stand_outcome (d : Deck) (cin : List Char) (card0 card1 card2 : Card)
    (t : Blackjack.Turn) (dealerTotal : Int) (ptr4 : Nat)
    (h0 : d.m_deck[0]? = some card0) (h1 : d.m_deck[1]? = some card1)
    (h2 : d.m_deck[2]? = some card2)
    (hplayer : Blackjack.playerLoop d (d.m_deck.length + 1)
      (card1.getCardValue + card2.getCardValue) 3 cin = some t)
    (hstand : t.bust = false)
    (hdealer : Blackjack.dealerLoop d (d.m_deck.length + 1) card0.getCardValue t.ptr =
      some (dealerTotal, ptr4)) :
    ∃ r : Blackjack.Round, Blackjack.playBlackjack d cin = some r ∧
      r.playerTotal = t.playerTotal ∧ r.dealerTotal = dealerTotal ∧ r.choice = 's' ∧
      (21 < dealerTotal → r.win = true) ∧
      (dealerTotal ≤ 21 → (r.win = true ↔ dealerTotal < t.playerTotal)) ∧
      (dealerTotal ≤ 21 → t.playerTotal = dealerTotal → r.win = false) := by
  obtain ⟨consumed, -, -, -, -, hs, -⟩ := playerLoop_some d _ _ _ _ t hplayer
  have hchoice := hs hstand
  rw [playBlackjack_unfold d cin card0 card1 card2 h0 h1 h2]
  simp only [hplayer, hstand, Bool.false_eq_true, if_false, hdealer]
  by_cases hw : dealerTotal > 21
  · rw [if_pos hw]
    exact ⟨_, rfl, rfl, rfl, hchoice, fun _ => rfl, fun hle => by omega, fun hle => by omega⟩
  · rw [if_neg hw]
    refine ⟨_, rfl, rfl, rfl, hchoice, fun hgt => by omega, fun _ => by simp, ?_⟩
    intro _ he
    simp [he]

/-- On the constructed deck the dealer shows 2, the player stands on
3 + 4 = 7, the dealer draws 5, 6 and 7 and ends on 20: the round is lost. -/
theorem C4_stand_outcome_witness :
    ∃ r : Blackjack.Round, Blackjack.playBlackjack Deck.new ['s'] = some r ∧
      r.playerTotal = 7 ∧ r.dealerTotal = 20 ∧ r.choice = 's' ∧
      (21 < (20 : Int) → r.win = true) ∧
      ((20 : Int) ≤ 21 → (r.win = true ↔ (20 : Int) < 7)) ∧
      ((20 : Int) ≤ 21 → (7 : Int) = 20 → r.win = false) :=
  C4_stand_outcome Deck.new ['s'] ⟨2, 0⟩ ⟨3, 0⟩ ⟨4, 0⟩ ⟨7, 3, 's', [], false⟩ 20 6
    (by decide) (by decide) (by decide) (by decide) rfl (by decide)

/-- The round of the specification's example that ends in a tie: the dealer
shows 10, the player stands on 10 + 9 = 19, the dealer draws a 9 and ends
on 19; the player loses. -/
theorem playBlackjack_tie_example :
    Blackjack.playBlackjack ⟨[⟨10, 0⟩, ⟨10, 1⟩, ⟨9, 0⟩, ⟨9, 1⟩, ⟨5, 0⟩]⟩ ['s'] =
      some ⟨false, 19, 19, 4, 's', [], false⟩ := by
  decide

/-- The round of the specification's example in which the dealer goes
over 21: the dealer shows 10, the player stands on 19, the dealer draws a 2
and a queen and ends on 22; the player wins. -/
theorem playBlackjack_dealer_bust_example :
    Blackjack.playBlackjack ⟨[⟨10, 0⟩, ⟨10, 1⟩, ⟨9, 0⟩, ⟨2, 1⟩, ⟨12, 0⟩]⟩ ['s'] =
      some ⟨true, 19, 22, 5, 's', [], false⟩ := by
  decide

/-- A round that ends on a bust (an `h` whose card takes the player
total above 21, after which the player loop returns at once) is lost; the
dealer total is still the value of the dealer's first card; the cards dealt
are the first three and one for each `h` read, so the dealer drew none after
its first; and the input after that `h` is not read: whatever stands there,
the round is the same. -/
theorem playBlackjack_bust_round (d : Deck) (cin : List Char) (r : Blackjack.Round)
    (h : Blackjack.playBlackjack d cin = some r) (hbust : r.bust = true) :
    r.win = false ∧ r.choice = 'h' ∧ 21 < r.playerTotal ∧
    (∃ card0 : Card, d.m_deck[0]? = some card0 ∧ r.dealerTotal = card0.getCardValue) ∧
    (∃ consumed : List Char, cin = consumed ++ r.cin ∧
      consumed.getLast? = some 'h' ∧
      r.ptr = 3 + consumed.count 'h' ∧
      ∀ more : List Char,
        Blackjack.playBlackjack d (consumed ++ more) = some { r with cin := more }) ∧
    (∀ (fuel : Nat) (playerTotal : Int) (ptr : Nat) (card : Card) (rest : List Char),
      d.m_deck[ptr]? = some card → 21 < playerTotal + card.getCardValue →
      Blackjack.playerLoop d (fuel + 1) playerTotal ptr ('h' :: rest) =
        some ⟨playerTotal + card.getCardValue, ptr + 1, 'h', rest, true⟩) := by
  obtain ⟨card0, card1, card2, t, h0, h1, h2, hp, e1, e2, e3, e4, hb, -⟩ :=
    playBlackjack_some d cin r h
  have htb : t.bust = true := by rw [← e4]; exact hbust
  obtain ⟨hwin, hdt, hptr⟩ := hb htb
  obtain ⟨consumed, c1, c2, c3, c4, -, c6⟩ := playerLoop_some d _ _ _ _ t hp
  obtain ⟨hch, htot⟩ := c4 htb
  refine ⟨hwin, by rw [e2, hch], by rw [e1]; exact htot, ⟨card0, h0, hdt⟩,
    ⟨consumed, by rw [e3]; exact c1, by rw [c3, hch], by rw [hptr, c2], ?_⟩, ?_⟩
  · intro more
    rw [playBlackjack_unfold d (consumed ++ more) card0 card1 card2 h0 h1 h2, c6 more]
    obtain ⟨rw, rp, rd, rptr, rc, rcin, rb⟩ := r
    simp only at e1 e2 e3 e4 hwin hdt hptr hbust
    subst e1 e2 e3 hwin hdt hptr hbust
    simp [htb]
  · intro fuel playerTotal ptr card rest hc hgt
    rw [Blackjack.playerLoop]
    simp [Blackjack.getPlayerChoice, Deck.dealCard, hc, hgt]

/-! ## Monster Hunter: one decision (C6, C7, C8) -/

/-- C6: a Fight decision taken when the player's attackDamage is at least
the monster's health ends the encounter by the death of the monster: the
player's gold grows by the monster's gold, level and attackDamage grow by
exactly 1, and the player's health is unchanged (the monster does not strike
back).  For the initial player (health 10, attack 1, gold 0, level 1)
against a Slime (health 1, attack 1, gold 10) the result is gold 10, level
2, attackDamage 2 and health 10. -/
theorem C6_fight_kills (g : Game) (cin : List Char) (randoms : List Int)
    (h : g.monster.m_health ≤ g.player.m_attackDamage) :
    (∃ g1 : Game,
      g.fightMonster ('f' :: cin) randoms = some ⟨Game.Exit.monsterKilled, g1, cin, randoms⟩ ∧
      g1.player.m_gold = g.player.m_gold + g.monster.m_gold ∧
      g1.player.m_level = g.player.m_level + 1 ∧
      g1.player.m_attackDamage = g.player.m_attackDamage + 1 ∧
      g1.player.m_health = g.player.m_health) ∧
    (∀ playerName : String, ∃ (slime : Monster) (g1 : Game),
      Monster.new Monster.SLIME = some slime ∧
      slime.m_health = 1 ∧ slime.m_attackDamage = 1 ∧ slime.m_gold = 10 ∧
      (Game.new playerName).player.m_health = 10 ∧
      (Game.new playerName).player.m_attackDamage = 1 ∧
      (Game.new playerName).player.m_gold = 0 ∧
      (Game.new playerName).player.m_level = 1 ∧
      Game.fightMonster { Game.new playerName with monster := slime } ('f' :: cin) randoms =
        some ⟨Game.Exit.monsterKilled, g1, cin, randoms⟩ ∧
      g1.player.m_gold = 10 ∧ g1.player.m_level = 2 ∧ g1.player.m_attackDamage = 2 ∧
      g1.player.m_health = 10) := by
  constructor
  · have hdead : g.monster.m_health - g.player.m_attackDamage ≤ 0 := by omega
    refine ⟨{ g.attackMonster with
      player := (g.player.levelUp).addGold g.monster.getGold }, ?_, rfl, rfl, rfl, rfl⟩
    simp [Game.fightMonster, Game.fightBody, Game.monsterKilled, Game.attackMonster,
      Creature.isDead, Creature.reduceHealth, Creature.getAttackDamage, Creature.getGold, hdead]
  · intro playerName
    refine ⟨⟨⟨"slime", 's', 1, 10, 1⟩⟩, _, rfl, rfl, rfl, rfl, rfl, rfl, rfl, rfl, rfl,
      rfl, rfl, rfl, rfl⟩

/-- The initial player kills a Slime with one blow. -/
theorem C6_fight_kills_witness :
    ∃ g1 : Game,
      Game.fightMonster { Game.new "ann" with monster := ⟨⟨"slime", 's', 1, 10, 1⟩⟩ }
        ['f'] [] = some ⟨Game.Exit.monsterKilled, g1, [], []⟩ ∧
      g1.player.m_gold = 0 + 10 ∧ g1.player.m_level = 1 + 1 ∧
      g1.player.m_attackDamage = 1 + 1 ∧ g1.player.m_health = 10 :=
  (C6_fight_kills { Game.new "ann" with monster := ⟨⟨"slime", 's', 1, 10, 1⟩⟩ } [] []
    (by decide)).1

/-- C7: a Fight decision after which the monster's health is still above 0
makes the monster strike back: the player's health drops by exactly the
monster's attackDamage while gold, level and attackDamage stay; the
encounter ends by the death of the player exactly when that health is at
most 0, and otherwise goes on with the same monster at its reduced health. -/
theorem C7_fight_counterattack (g : Game) (cin : List Char) (randoms : List Int)
    (h : 0 < g.monster.m_health - g.player.m_attackDamage) :
    ∃ g1 : Game,
      g1.player.m_health = g.player.m_health - g.monster.m_attackDamage ∧
      g1.player.m_gold = g.player.m_gold ∧
      g1.player.m_level = g.player.m_level ∧
      g1.player.m_attackDamage = g.player.m_attackDamage ∧
      g1.player.m_name = g.player.m_name ∧ g1.player.m_symbol = g.player.m_symbol ∧
      g1.monster =
        ⟨{ g.monster.toCreature with
            m_health := g.monster.m_health - g.player.m_attackDamage }⟩ ∧
      g.fightBody 'f' randoms =
        some (if g1.player.m_health ≤ 0 then Game.Body.leave g1 Game.Exit.playerKilled
              else Game.Body.again g1, randoms) ∧
      (g1.player.m_health ≤ 0 →
        g.fightMonster ('f' :: cin) randoms =
          some ⟨Game.Exit.playerKilled, g1, cin, randoms⟩) ∧
      (0 < g1.player.m_health →
        g.fightMonster ('f' :: cin) randoms = g1.fightMonster cin randoms) := by
  have hlive : ¬ (g.monster.m_health - g.player.m_attackDamage ≤ 0) := by omega
  have hbody : g.fightBody 'f' randoms =
      some (if (g.attackMonster.attackPlayer).player.m_health ≤ 0
            then Game.Body.leave (g.attackMonster.attackPlayer) Game.Exit.playerKilled
            else Game.Body.again (g.attackMonster.attackPlayer), randoms) := by
    simp only [Game.fightBody, Game.monsterKilled, Game.attackMonster, Game.playerKilled,
      Creature.isDead, Creature.reduceHealth, Creature.getAttackDamage, if_true]
    simp only [hlive, decide_False, Bool.false_eq_true, if_false]
    by_cases hd : (g.attackMonster.attackPlayer).player.m_health ≤ 0
    · have hd1 := hd
      simp only [Game.attackMonster, Creature.reduceHealth, Creature.getAttackDamage] at hd1
      simp only [Game.attackMonster, Creature.reduceHealth, Creature.getAttackDamage, hd1,
        decide_True, if_true]
    · have hd1 := hd
      simp only [Game.attackMonster, Creature.reduceHealth, Creature.getAttackDamage] at hd1
      simp only [Game.attackMonster, Creature.reduceHealth, Creature.getAttackDamage, hd1,
        decide_False, Bool.false_eq_true, if_false]
  refine ⟨g.attackMonster.attackPlayer, rfl, rfl, rfl, rfl, rfl, rfl, rfl, hbody, ?_, ?_⟩
  · intro hd
    rw [Game.fightMonster, hbody, if_pos hd]
  · intro hl
    have hl1 : ¬ ((g.attackMonster.attackPlayer).player.m_health ≤ 0) := by omega
    rw [Game.fightMonster, hbody, if_neg hl1]

/-- The initial player strikes a Dragon, which survives and strikes back:
health 10 becomes 6, and the encounter goes on. -/
theorem C7_fight_counterattack_witness :
    ∃ g1 : Game, g1.player.m_health = 10 - 4 ∧
      Game.fightBody { Game.new "ann" with monster := ⟨⟨"dragon", 'D', 20, 100, 4⟩⟩ } 'f' [] =
        some (Game.Body.again g1, []) := by
  obtain ⟨g1, h1, -, -, -, -, -, -, h8, -, -⟩ :=
    C7_fight_counterattack { Game.new "ann" with monster := ⟨⟨"dragon", 'D', 20, 100, 4⟩⟩ }
      [] [] (by decide)
  have hpos : ¬ (g1.player.m_health ≤ 0) := by
    rw [h1]
    decide
  rw [if_neg hpos] at h8
  exact ⟨g1, h1, h8⟩

/-- C8: a Run decision escapes exactly when the roll is at most 50, which
50 of the 100 rolls from 1 to 100 are.  On escape the encounter ends with
the state unchanged.  On failure the player's health drops by exactly the
monster's attackDamage, nothing else changes (the monster keeps its
health), and the encounter ends by the death of the player exactly when
that health is at most 0; otherwise it goes on with the same monster. -/
theorem C8_run_decision (g : Game) (cin : List Char) (randoms : List Int) (random : Int)
    (h1 : 1 ≤ random) (h100 : random ≤ 100) :
    (Game.run random = true ↔ random ≤ 50) ∧
    (((List.range' 1 100).map Int.ofNat).filter Game.run).length = 50 ∧
    (random ≤ 50 →
      g.fightMonster ('r' :: cin) (random :: randoms) =
        some ⟨Game.Exit.fled, g, cin, randoms⟩) ∧
    (50 < random →
      ∃ g1 : Game,
        g1.player =
          { g.player with m_health := g.player.m_health - g.monster.m_attackDamage } ∧
        g1.monster = g.monster ∧
        g.fightBody 'r' (random :: randoms) =
          some (if g1.player.m_health ≤ 0 then Game.Body.leave g1 Game.Exit.playerKilled
                else Game.Body.again g1, randoms) ∧
        (g1.player.m_health ≤ 0 →
          g.fightMonster ('r' :: cin) (random :: randoms) =
            some ⟨Game.Exit.playerKilled, g1, cin, randoms⟩) ∧
        (0 < g1.player.m_health →
          g.fightMonster ('r' :: cin) (random :: randoms) = g1.fightMonster cin randoms)) := by
  have hrf : ¬ ('r' = 'f') := by decide
  refine ⟨by simp [Game.run], by decide, ?_, ?_⟩
  · intro hle
    simp [Game.fightMonster, Game.fightBody, Game.run, hle]
  · intro hgt
    have hnle : ¬ (random ≤ 50) := by omega
    have hbody : g.fightBody 'r' (random :: randoms) =
        some (if (g.attackPlayer).player.m_health ≤ 0
              then Game.Body.leave g.attackPlayer Game.Exit.playerKilled
              else Game.Body.again g.attackPlayer, randoms) := by
      simp only [Game.fightBody, if_neg hrf, Game.run, hnle, decide_False, Bool.not_false,
        if_true, Game.playerKilled, Creature.isDead]
      by_cases hd : (g.attackPlayer).player.m_health ≤ 0
      · simp only [hd, decide_True, if_true]
      · simp only [hd, decide_False, Bool.false_eq_true, if_false]
    refine ⟨g.attackPlayer, rfl, rfl, hbody, ?_, ?_⟩
    · intro hd
      rw [Game.fightMonster, hbody, if_pos hd]
    · intro hl
      have hl1 : ¬ ((g.attackPlayer).player.m_health ≤ 0) := by omega
      rw [Game.fightMonster, hbody, if_neg hl1]

/-- Facing a Dragon, the initial player escapes on the roll 50 and fails to
escape on the roll 51. -/
theorem C8_run_decision_witness :
    (Game.run 50 = true ↔ (50 : Int) ≤ 50) ∧ (Game.run 51 = true ↔ (51 : Int) ≤ 50) :=
  ⟨(C8_run_decision { Game.new "ann" with monster := ⟨⟨"dragon", 'D', 20, 100, 4⟩⟩ }
      [] [] 50 (by decide) (by decide)).1,
   (C8_run_decision { Game.new "ann" with monster := ⟨⟨"dragon", 'D', 20, 100, 4⟩⟩ }
      [] [] 51 (by decide) (by decide)).1⟩

/-! ## Monster Hunter: the session (C9) -/

/-- An iteration of the fight loop changes the level only when it ends the
encounter by the death of the monster, and then by exactly 1. -/
theorem fightBody_level (g : Game) (decision : Char) (randoms randoms1 : List Int)
    (b : Game.Body) (h : g.fightBody decision randoms = some (b, randoms1)) :
    (∀ g1, b = Game.Body.again g1 → g1.player.m_level = g.player.m_level) ∧
    (∀ g1, b = Game.Body.leave g1 Game.Exit.monsterKilled →
      g1.player.m_level = g.player.m_level + 1) ∧
    (∀ g1 how, b = Game.Body.leave g1 how → how ≠ Game.Exit.monsterKilled →
      g1.player.m_level = g.player.m_level) := by
  unfold Game.fightBody at h
  by_cases hf : decision = 'f'
  · simp only [if_pos hf] at h
    by_cases hk : (g.attackMonster.monsterKilled).1 = true
    · simp only [hk, if_true, Option.some.injEq, Prod.mk.injEq] at h
      obtain ⟨hb, -⟩ := h
      subst hb
      have hdead : g.attackMonster.monster.isDead = true := by
        by_contra hn
        simp [Game.monsterKilled, hn] at hk
      refine ⟨by simp, ?_, by simp⟩
      intro g1 hg1
      simp only [Game.Body.leave.injEq, and_true] at hg1
      subst hg1
      simp only [Game.monsterKilled, hdead, if_true]
      rfl
    · have hk2 : (g.attackMonster.monsterKilled).2 = g.attackMonster := by
        simp only [Game.monsterKilled] at hk ⊢
        split
        · next hd => simp [hd] at hk
        · rfl
      simp only [hk, Bool.false_eq_true, if_false, hk2] at h
      by_cases hp : (g.attackMonster.attackPlayer).playerKilled = true
      · simp only [hp, if_true, Option.some.injEq, Prod.mk.injEq] at h
        obtain ⟨hb, -⟩ := h
        subst hb
        refine ⟨by simp, by simp, ?_⟩
        intro g1 how hg1 _
        simp only [Game.Body.leave.injEq] at hg1
        rw [← hg1.1]
        rfl
      · simp only [hp, Bool.false_eq_true, if_false, Option.some.injEq, Prod.mk.injEq] at h
        obtain ⟨hb, -⟩ := h
        subst hb
        refine ⟨?_, by simp, by simp⟩
        intro g1 hg1
        simp only [Game.Body.again.injEq] at hg1
        rw [← hg1]
        rfl
  · simp only [if_neg hf] at h
    by_cases hr : decision = 'r'
    · simp only [if_pos hr] at h
      cases randoms with
      | nil => simp at h
      | cons random rest =>
        simp only at h
        by_cases hfight : (!Game.run random) = true
        · simp only [hfight, if_true] at h
          by_cases hp : (g.attackPlayer).playerKilled = true
          · simp only [hp, if_true, Option.some.injEq, Prod.mk.injEq] at h
            obtain ⟨hb, -⟩ := h
            subst hb
            refine ⟨by simp, by simp, ?_⟩
            intro g1 how hg1 _
            simp only [Game.Body.leave.injEq] at hg1
            rw [← hg1.1]
            rfl
          · simp only [hp, Bool.false_eq_true, if_false, Option.some.injEq,
              Prod.mk.injEq] at h
            obtain ⟨hb, -⟩ := h
            subst hb
            refine ⟨?_, by simp, by simp⟩
            intro g1 hg1
            simp only [Game.Body.again.injEq] at hg1
            rw [← hg1]
            rfl
        · simp only [hfight, Bool.false_eq_true, if_false, Option.some.injEq,
            Prod.mk.injEq] at h
          obtain ⟨hb, -⟩ := h
          subst hb
          refine ⟨by simp, by simp, ?_⟩
          intro g1 how hg1 _
          simp only [Game.Body.leave.injEq] at hg1
          rw [← hg1.1]
    · simp only [if_neg hr, Option.some.injEq, Prod.mk.injEq] at h
      obtain ⟨hb, -⟩ := h
      subst hb
      refine ⟨?_, by simp, by simp⟩
      intro g1 hg1
      simp only [Game.Body.again.injEq] at hg1
      rw [← hg1]

/-- Whatever an iteration of the fight loop leads to, the level is the
level before or one more. -/
theorem fightBody_level_step (g : Game) (decision : Char) (randoms randoms1 : List Int)
    (b : Game.Body) (h : g.fightBody decision randoms = some (b, randoms1)) :
    b.game.player.m_level = g.player.m_level ∨
    b.game.player.m_level = g.player.m_level + 1 := by
  obtain ⟨ha, hk, hl⟩ := fightBody_level g decision randoms randoms1 b h
  cases b with
  | again g1 => exact Or.inl (ha g1 rfl)
  | leave g1 how =>
    by_cases hm : how = Game.Exit.monsterKilled
    · subst hm
      exact Or.inr (hk g1 rfl)
    · exact Or.inl (hl g1 how rfl hm)

/-- In every state of a session the level lies between 1 and 20; it is
below 20 while a monster is fought and 1 before the first monster. -/
theorem reach_level (playerName : String) (ph : Game.Phase) (g : Game)
    (h : Game.Reach playerName ph g) :
    1 ≤ g.player.m_level ∧ g.player.m_level ≤ 20 ∧
    (ph = Game.Phase.fighting → g.player.m_level < 20) ∧
    (ph = Game.Phase.start → g.player.m_level = 1) := by
  induction h with
  | start =>
    have h1 : (Game.new playerName).player.m_level = 1 := rfl
    exact ⟨by rw [h1], by rw [h1]; decide, by simp, fun _ => rfl⟩
  | spawnFirst g random m _ _ ih =>
    have h1 : g.player.m_level = 1 := ih.2.2.2 rfl
    refine ⟨?_, ?_, fun _ => ?_, by simp⟩ <;> simp only [h1] <;> decide
  | spawnNext g random m _ hagain _ ih =>
    have hne : g.player.m_level ≠ 20 := by
      intro he
      simp [Game.playAgain, Player.hasWon, he] at hagain
    have hle := ih.2.1
    refine ⟨ih.1, ih.2.1, fun _ => ?_, by simp⟩
    show g.player.m_level < 20
    omega
  | again g g1 decision randoms randoms1 _ hbody ih =>
    have he := (fightBody_level g decision randoms randoms1 _ hbody).1 g1 rfl
    have hlt := ih.2.2.1 rfl
    refine ⟨by omega, by omega, fun _ => by omega, by simp⟩
  | leave g g1 how decision randoms randoms1 _ hbody ih =>
    have hs := fightBody_level_step g decision randoms randoms1 _ hbody
    simp only [Game.Body.game] at hs
    have hlt := ih.2.2.1 rfl
    refine ⟨by omega, by omega, by simp, by simp⟩

/-- The state in which `fightMonster` is left is a state of the session. -/
theorem fightMonster_reach (playerName : String) : ∀ (cin : List Char) (g : Game)
    (randoms : List Int) (r : Game.Fought),
    Game.Reach playerName Game.Phase.fighting g →
    g.fightMonster cin randoms = some r →
    Game.Reach playerName Game.Phase.fought r.game
  | [], _, _, _, _, h => by simp [Game.fightMonster] at h
  | decision :: cin, g, randoms, r, hg, h => by
    rw [Game.fightMonster] at h
    cases hb : g.fightBody decision randoms with
    | none => simp [hb] at h
    | some q =>
      obtain ⟨b, randoms1⟩ := q
      cases b with
      | again g1 =>
        simp only [hb] at h
        exact fightMonster_reach playerName cin g1 randoms1 r
          (Game.Reach.again g g1 decision randoms randoms1 hg hb) h
      | leave g1 how =>
        simp only [hb, Option.some.injEq] at h
        subst h
        exact Game.Reach.leave g g1 how decision randoms randoms1 hg hb

/-- The state in which `play` returns is a state of the session in which
the loop condition is false, and the win message is written exactly when
`hasWon` holds there. -/
theorem play_reach (playerName : String) : ∀ (fuel : Nat) (g : Game) (cin : List Char)
    (randoms : List Int) (out : Game.Played),
    (Game.Reach playerName Game.Phase.start g ∨
      (Game.Reach playerName Game.Phase.fought g ∧ g.playAgain = true)) →
    Game.play fuel g cin randoms = some out →
    Game.Reach playerName Game.Phase.fought out.game ∧ out.game.playAgain = false ∧
      out.wonReport = out.game.player.hasWon
  | 0, _, _, _, _, _, h => by simp [Game.play] at h
  | fuel + 1, g, cin, randoms, out, hg, h => by
    rw [Game.play] at h
    cases hb : g.playBody cin randoms with
    | none => simp [hb] at h
    | some r =>
      simp only [hb] at h
      have hr : Game.Reach playerName Game.Phase.fought r.game := by
        unfold Game.playBody at hb
        cases randoms with
        | nil => simp at hb
        | cons random randoms1 =>
          simp only at hb
          cases hm : Monster.getRandomMonster random with
          | none => simp [hm] at hb
          | some m =>
            simp only [hm] at hb
            refine fightMonster_reach playerName cin _ randoms1 r ?_ hb
            rcases hg with hg | ⟨hg, hagain⟩
            · exact Game.Reach.spawnFirst g random m hg hm
            · exact Game.Reach.spawnNext g random m hg hagain hm
      by_cases hagain : r.game.playAgain = true
      · simp only [hagain, if_true] at h
        exact play_reach playerName fuel r.game r.cin r.randoms out (Or.inr ⟨hr, hagain⟩) h
      · simp only [hagain, Bool.false_eq_true, if_false, Option.some.injEq] at h
        subst h
        exact ⟨hr, by simpa using hagain, rfl⟩

/-- C9: in every state of a session started from the initial player the
level lies between 1 and 20, and it is below 20 whenever a monster is
current; an iteration of the fight loop leaves the level as it is or
increases it by exactly 1; `hasWon` holds exactly when the level is 20, and
the session loop does not go on then.  Accordingly `play` returns in such a
state, with a level between 1 and 20, and writes the win message exactly
when the level is 20. -/
theorem C9_level_bounds (playerName : String) :
    (∀ (ph : Game.Phase) (g : Game), Game.Reach playerName ph g →
      1 ≤ g.player.m_level ∧ g.player.m_level ≤ 20 ∧
      (ph = Game.Phase.fighting → g.player.m_level < 20) ∧
      (g.player.hasWon = true ↔ g.player.m_level = 20) ∧
      (g.player.m_level = 20 → g.playAgain = false) ∧
      (∀ (decision : Char) (randoms randoms1 : List Int) (b : Game.Body),
        g.fightBody decision randoms = some (b, randoms1) →
        b.game.player.m_level = g.player.m_level ∨
        b.game.player.m_level = g.player.m_level + 1)) ∧
    (∀ (fuel : Nat) (cin : List Char) (randoms : List Int) (out : Game.Played),
      Game.play fuel (Game.new playerName) cin randoms = some out →
      Game.Reach playerName Game.Phase.fought out.game ∧
      1 ≤ out.game.player.m_level ∧ out.game.player.m_level ≤ 20 ∧
      out.game.playAgain = false ∧
      (out.wonReport = true ↔ out.game.player.m_level = 20)) := by
  constructor
  · intro ph g hg
    obtain ⟨h1, h20, hf, -⟩ := reach_level playerName ph g hg
    refine ⟨h1, h20, hf, by simp [Player.hasWon], ?_, ?_⟩
    · intro he
      simp [Game.playAgain, Player.hasWon, he]
    · intro decision randoms randoms1 b hb
      exact fightBody_level_step g decision randoms randoms1 b hb
  · intro fuel cin randoms out hplay
    obtain ⟨hr, hstop, hw⟩ :=
      play_reach playerName fuel _ cin randoms out (Or.inl Game.Reach.start) hplay
    obtain ⟨h1, h20, -, -⟩ := reach_level playerName _ _ hr
    refine ⟨hr, h1, h20, hstop, ?_⟩
    rw [hw]
    simp [Player.hasWon]

/-- A session in which nineteen Slimes are killed in a row returns with the
player at level 20 and the win message written; and the state after the
first of these kills, at level 2, is a state of the session within the
bounds. -/
theorem C9_level_bounds_witness :
    (Game.play 19 (Game.new "ann") (List.replicate 19 'f') (List.replicate 19 2)).map
        (fun out => (out.game.player.m_level, out.wonReport)) = some (20, true) ∧
    (1 : Int) ≤ 2 ∧ (2 : Int) ≤ 20 :=
  have hreach : Game.Reach "ann" Game.Phase.fought
      { player := ((Game.new "ann").player.levelUp).addGold 10,
        monster := ⟨⟨"slime", 's', 0, 10, 1⟩⟩ } :=
    Game.Reach.leave { Game.new "ann" with monster := ⟨⟨"slime", 's', 1, 10, 1⟩⟩ } _
      Game.Exit.monsterKilled 'f' [] []
      (Game.Reach.spawnFirst (Game.new "ann") 2 ⟨⟨"slime", 's', 1, 10, 1⟩⟩
        Game.Reach.start rfl) rfl
  ⟨by decide, ((C9_level_bounds "ann").1 _ _ hreach).1, ((C9_level_bounds "ann").1 _ _ hreach).2.1⟩

/-! ## Blackjack: the first three cards (C11) -/

/-- The round is its first statements followed by the rest. -/
theorem playBlackjack_eq_afterDeal (d : Deck) (cin : List Char) :
    Blackjack.playBlackjack d cin =
      match Blackjack.initialDeal d with
      | none => none
      | some (dealerTotal, playerTotal, ptr3) =>
        Blackjack.afterDeal d dealerTotal playerTotal ptr3 cin := by
  unfold Blackjack.playBlackjack Blackjack.initialDeal Blackjack.afterDeal
  simp only [Deck.dealCard]
  cases h0 : d.m_deck[0]? with
  | none => rfl
  | some card0 =>
    simp only
    cases h1 : d.m_deck[0 + 1]? with
    | none => rfl
    | some card1 =>
      simp only
      cases h2 : d.m_deck[0 + 1 + 1]? with
      | none => rfl
      | some card2 => rfl

/-- C11: when the first three cards dealt are `card0`, `card1` and `card2`,
the dealer total at the start of the round (the total shown) is the value of
`card0` alone and the player total is the sum of the values of `card1` and
`card2`; the rest of the round runs from these totals, and a player who
stands at once ends the round on that sum.  An Ace counts 11 and a face card
10, and nothing is re-scored: two Aces make 22. -/
theorem C11_initial_totals (d : Deck) (card0 card1 card2 : Card)
    (hdeal : d.dealCards 3 0 = ([some card0, some card1, some card2], 3)) :
    Blackjack.initialDeal d =
      some (card0.getCardValue, card1.getCardValue + card2.getCardValue, 3) ∧
    (∀ cin : List Char, Blackjack.playBlackjack d cin =
      Blackjack.afterDeal d card0.getCardValue
        (card1.getCardValue + card2.getCardValue) 3 cin) ∧
    (∀ (rest : List Char) (r : Blackjack.Round),
      Blackjack.playBlackjack d ('s' :: rest) = some r →
      r.playerTotal = card1.getCardValue + card2.getCardValue) ∧
    (∀ c : Card, c.m_rank = Card.RANK_ACE → c.getCardValue = 11) ∧
    (∀ c : Card, c.m_rank = Card.RANK_JACK ∨ c.m_rank = Card.RANK_QUEEN ∨
      c.m_rank = Card.RANK_KING → c.getCardValue = 10) ∧
    (card1.m_rank = Card.RANK_ACE → card2.m_rank = Card.RANK_ACE →
      card1.getCardValue + card2.getCardValue = 22) := by
  simp only [Deck.dealCards, Deck.dealCard, zero_add, List.cons.injEq, and_true,
    Prod.mk.injEq] at hdeal
  obtain ⟨h0, h1, h2⟩ := hdeal
  have h1a : d.m_deck[0 + 1]? = some card1 := h1
  have h2a : d.m_deck[0 + 1 + 1]? = some card2 := h2
  have hinit : Blackjack.initialDeal d =
      some (card0.getCardValue, card1.getCardValue + card2.getCardValue, 3) := by
    simp only [Blackjack.initialDeal, Deck.dealCard, h0, h1a, h2a, zero_add]
  have hace : ∀ c : Card, c.m_rank = Card.RANK_ACE → c.getCardValue = 11 := by
    rintro ⟨r, s⟩ h
    simp only [Card.RANK_ACE] at h
    subst h
    simp [Card.getCardValue]
  have hround : ∀ cin : List Char, Blackjack.playBlackjack d cin =
      Blackjack.afterDeal d card0.getCardValue
        (card1.getCardValue + card2.getCardValue) 3 cin := by
    intro cin
    rw [playBlackjack_eq_afterDeal, hinit]
  refine ⟨hinit, hround, ?_, hace, ?_, ?_⟩
  · intro rest r hr
    rw [hround] at hr
    have hloop : Blackjack.playerLoop d (d.m_deck.length + 1)
        (card1.getCardValue + card2.getCardValue) 3 ('s' :: rest) =
        some ⟨card1.getCardValue + card2.getCardValue, 3, 's', rest, false⟩ := by
      rw [Blackjack.playerLoop]
      simp [Blackjack.getPlayerChoice]
    simp only [Blackjack.afterDeal, hloop, Bool.false_eq_true, if_false] at hr
    cases hd : Blackjack.dealerLoop d (d.m_deck.length + 1) card0.getCardValue 3 with
    | none => simp [hd] at hr
    | some q =>
      obtain ⟨dealerTotal1, ptr4⟩ := q
      simp only [hd] at hr
      by_cases hw : dealerTotal1 > 21
      · simp only [if_pos hw, Option.some.injEq] at hr
        subst hr
        rfl
      · simp only [if_neg hw, Option.some.injEq] at hr
        subst hr
        rfl
  · rintro ⟨r, s⟩ h
    simp only [Card.RANK_JACK, Card.RANK_QUEEN, Card.RANK_KING] at h
    rcases h with h | h | h <;> subst h <;> simp [Card.getCardValue]
  · intro ha1 ha2
    rw [hace card1 ha1, hace card2 ha2]
    rfl

/-- On the constructed deck the dealer shows the 2 and the player starts on
3 + 4 = 7. -/
theorem C11_initial_totals_witness :
    Blackjack.initialDeal Deck.new = some (2, 3 + 4, 3) :=
  (C11_initial_totals Deck.new ⟨2, 0⟩ ⟨3, 0⟩ ⟨4, 0⟩ (by decide)).1

/-! ## Blackjack: the dealer's turn (C12) -/

/-- The sum of the values from a position inside the deck starts with the
value of the card there. -/
theorem valueSum_succ (d : Deck) (ptr n : Nat) (card : Card)
    (h : d.m_deck[ptr]? = some card) :
    d.valueSum ptr (n + 1) = card.getCardValue + d.valueSum (ptr + 1) n := by
  obtain ⟨hlt, hget⟩ := List.getElem?_eq_some_iff.mp h
  simp only [Deck.valueSum, List.drop_eq_getElem_cons hlt, List.take_succ_cons, List.map_cons,
    List.sum_cons, hget]

/-- What the dealer loop returns: it has dealt the `n` cards from the
pointer on, its total is the total it started from plus their values, that
total is at least 17, and before each of the draws the total was below 17. -/
theorem dealerLoop_some (d : Deck) : ∀ (fuel : Nat) (dealerTotal : Int) (ptr : Nat)
    (final : Int) (ptr4 : Nat),
    Blackjack.dealerLoop d fuel dealerTotal ptr = some (final, ptr4) →
    ∃ n : Nat, ptr4 = ptr + n ∧
      final = dealerTotal + d.valueSum ptr n ∧ 17 ≤ final ∧
      (∀ j : Nat, j < n → dealerTotal + d.valueSum ptr j < 17) ∧
      (∀ j : Nat, j < n → ptr + j < d.m_deck.length)
  | 0, _, _, _, _, h => by simp [Blackjack.dealerLoop] at h
  | fuel + 1, dealerTotal, ptr, final, ptr4, h => by
    rw [Blackjack.dealerLoop] at h
    by_cases ht : dealerTotal < 17
    · simp only [if_pos ht, Deck.dealCard] at h
      cases hc : d.m_deck[ptr]? with
      | none => simp [hc] at h
      | some card =>
        simp only [hc] at h
        obtain ⟨n, h1, h2, h3, h4, h5⟩ := dealerLoop_some d fuel _ _ final ptr4 h
        have hlt := (List.getElem?_eq_some_iff.mp hc).1
        refine ⟨n + 1, by omega, ?_, h3, ?_, ?_⟩
        · rw [valueSum_succ d ptr n card hc, h2]
          omega
        · intro j hj
          cases j with
          | zero => simpa [Deck.valueSum] using ht
          | succ j =>
            rw [valueSum_succ d ptr j card hc]
            have := h4 j (by omega)
            omega
        · intro j hj
          cases j with
          | zero => simpa using hlt
          | succ j =>
            have := h5 j (by omega)
            omega
    · simp only [if_neg ht, Option.some.injEq, Prod.mk.injEq] at h
      obtain ⟨h1, h2⟩ := h
      refine ⟨0, by omega, ?_, by omega, by simp, by simp⟩
      simp [Deck.valueSum, h1]

/-- No card is worth more than 11, nor less than 0. -/
theorem getCardValue_bounds (c : Card) : 0 ≤ c.getCardValue ∧ c.getCardValue ≤ 11 := by
  unfold Card.getCardValue
  split <;> decide

/-- C12: in a round in which the player stands, the dealer draws exactly
while its total is below 17.  The player loop of the round, run from the
sum of the second and third cards on the round's input, ends on a stand
with the deal pointer at `t.ptr`; the dealer loop starts from the value of
the first card at that pointer, and the final dealer total is that value
plus the values of the `n` cards from `t.ptr` on, the cards that follow the
player's.  `n` is the first number of cards with which the sum reaches 17:
with every shorter run the total is below 17 (and the next card is drawn),
the final total is at least 17, and at least one card is drawn.  A dealer
loop entered with 17 or more draws nothing, and one entered below 17 draws
the card under the pointer. -/
theorem C12_dealer_draws (d : Deck) (cin : List Char) (r : Blackjack.Round)
    (h : Blackjack.playBlackjack d cin = some r) (hstand : r.bust = false) :
    (∃ (card0 card1 card2 : Card) (t : Blackjack.Turn) (n : Nat),
      d.m_deck[0]? = some card0 ∧ d.m_deck[1]? = some card1 ∧ d.m_deck[2]? = some card2 ∧
      Blackjack.playerLoop d (d.m_deck.length + 1)
        (card1.getCardValue + card2.getCardValue) 3 cin = some t ∧
      t.bust = false ∧ t.choice = 's' ∧ r.playerTotal = t.playerTotal ∧
      Blackjack.dealerLoop d (d.m_deck.length + 1) card0.getCardValue t.ptr =
        some (r.dealerTotal, r.ptr) ∧
      r.ptr = t.ptr + n ∧
      r.dealerTotal = card0.getCardValue + d.valueSum t.ptr n ∧
      (∀ j : Nat, j < n → card0.getCardValue + d.valueSum t.ptr j < 17) ∧
      (∀ j : Nat, j < n → t.ptr + j < d.m_deck.length) ∧
      1 ≤ n) ∧
    17 ≤ r.dealerTotal ∧
    (∀ (fuel : Nat) (dealerTotal : Int) (ptr : Nat), 17 ≤ dealerTotal →
      Blackjack.dealerLoop d (fuel + 1) dealerTotal ptr = some (dealerTotal, ptr)) ∧
    (∀ (fuel : Nat) (dealerTotal : Int) (ptr : Nat) (card : Card), dealerTotal < 17 →
      d.m_deck[ptr]? = some card →
      Blackjack.dealerLoop d (fuel + 1) dealerTotal ptr =
        Blackjack.dealerLoop d fuel (dealerTotal + card.getCardValue) (ptr + 1)) := by
  obtain ⟨card0, card1, card2, t, h0, h1, h2, hp, e1, -, -, e4, -, hs⟩ :=
    playBlackjack_some d cin r h
  have htb : t.bust = false := by rw [← e4]; exact hstand
  obtain ⟨hd, -⟩ := hs htb
  obtain ⟨-, -, -, -, -, hchoice, -⟩ := playerLoop_some d _ _ _ _ t hp
  obtain ⟨n, n1, n2, n3, n4, n5⟩ := dealerLoop_some d _ _ _ _ _ hd
  refine ⟨⟨card0, card1, card2, t, n, h0, h1, h2, hp, htb, hchoice htb, e1, hd, n1, n2, n4,
    n5, ?_⟩, n3, ?_, ?_⟩
  · by_contra hn
    have hz : n = 0 := by omega
    have hv := (getCardValue_bounds card0).2
    rw [hz] at n2
    simp only [Deck.valueSum, List.take_zero, List.map_nil, List.sum_nil, add_zero] at n2
    omega
  · intro fuel dealerTotal ptr h17
    rw [Blackjack.dealerLoop, if_neg (by omega)]
  · intro fuel dealerTotal ptr card hlt hc
    rw [Blackjack.dealerLoop, if_pos hlt]
    simp only [Deck.dealCard, hc]

/-- On the constructed deck the player stands on 7 and the dealer, showing
2, draws 5, 6 and 7: the run of three cards is the shortest that reaches 17,
and the dealer ends on 20. -/
theorem C12_dealer_draws_witness :
    Blackjack.playBlackjack Deck.new ['s'] = some ⟨false, 7, 20, 6, 's', [], false⟩ ∧
    (17 : Int) ≤ 20 :=
  ⟨by decide,
   (C12_dealer_draws Deck.new ['s'] ⟨false, 7, 20, 6, 's', [], false⟩ (by decide) rfl).2.1⟩

/-! ## Decisions that are not offered (C14) -/

/-- C14: a character that is none of the offered decisions changes nothing.
In the monster encounter a character other than `f` and `r` leads to the
next iteration with the same game and the same random values left, so that
the encounter is what it is without that character.  In Blackjack a
character other than `h` and `s` is read over by `getPlayerChoice`: the
player loop, with its total and deal pointer, and the round are what they
are without that character. -/
theorem C14_invalid_decision (c : Char) :
    (c ≠ 'f' → c ≠ 'r' → ∀ (g : Game) (cin : List Char) (randoms : List Int),
      g.fightBody c randoms = some (Game.Body.again g, randoms) ∧
      g.fightMonster (c :: cin) randoms = g.fightMonster cin randoms) ∧
    (c ≠ 'h' → c ≠ 's' → ∀ (d : Deck) (cin : List Char),
      Blackjack.getPlayerChoice (c :: cin) = Blackjack.getPlayerChoice cin ∧
      (∀ (fuel : Nat) (playerTotal : Int) (ptr : Nat),
        Blackjack.playerLoop d fuel playerTotal ptr (c :: cin) =
          Blackjack.playerLoop d fuel playerTotal ptr cin) ∧
      Blackjack.playBlackjack d (c :: cin) = Blackjack.playBlackjack d cin) := by
  constructor
  · intro hf hr g cin randoms
    have hbody : g.fightBody c randoms = some (Game.Body.again g, randoms) := by
      simp only [Game.fightBody, if_neg hf, if_neg hr]
    exact ⟨hbody, by rw [Game.fightMonster, hbody]⟩
  · intro hh hs d cin
    have hchoice : Blackjack.getPlayerChoice (c :: cin) = Blackjack.getPlayerChoice cin := by
      rw [Blackjack.getPlayerChoice, if_pos ⟨hh, hs⟩]
    have hloop : ∀ (fuel : Nat) (playerTotal : Int) (ptr : Nat),
        Blackjack.playerLoop d fuel playerTotal ptr (c :: cin) =
          Blackjack.playerLoop d fuel playerTotal ptr cin := by
      intro fuel playerTotal ptr
      cases fuel with
      | zero => rfl
      | succ fuel => rw [Blackjack.playerLoop, Blackjack.playerLoop, hchoice]
    refine ⟨hchoice, hloop, ?_⟩
    rw [playBlackjack_eq_afterDeal, playBlackjack_eq_afterDeal]
    cases Blackjack.initialDeal d with
    | none => rfl
    | some q =>
      obtain ⟨dealerTotal, playerTotal, ptr3⟩ := q
      simp only [Blackjack.afterDeal, hloop]

/-- The character `x` changes neither the fight against a Slime nor the
round on the constructed deck. -/
theorem C14_invalid_decision_witness :
    Game.fightMonster { Game.new "ann" with monster := ⟨⟨"slime", 's', 1, 10, 1⟩⟩ }
        ['x', 'f'] [] =
      Game.fightMonster { Game.new "ann" with monster := ⟨⟨"slime", 's', 1, 10, 1⟩⟩ }
        ['f'] [] ∧
    Blackjack.playBlackjack Deck.new ['x', 's'] = Blackjack.playBlackjack Deck.new ['s'] :=
  ⟨((C14_invalid_decision 'x').1 (by decide) (by decide) _ ['f'] []).2,
   ((C14_invalid_decision 'x').2 (by decide) (by decide) Deck.new ['s']).2.2⟩

/-! ## Blackjack: the constructed deck (C15) -/

/-- C15: the deck built by the constructor has 52 cells; the cell at index
i holds the rank (i mod 13) + 2 and the suit i div 13; the cards are
pairwise distinct and every pair of a rank from 2 to 14 (Ace) and a suit
from 0 (Club) to 3 (Spade) occurs exactly once. -/
theorem C15_constructed_deck :
    Deck.new.m_deck.length = 52 ∧
    (∀ i : Nat, i < 52 → Deck.new.m_deck[i]? = some ⟨(i % 13) + 2, i / 13⟩) ∧
    Deck.new.m_deck.Nodup ∧
    (∀ rank suit : Nat, 2 ≤ rank → rank ≤ 14 → suit ≤ 3 →
      Deck.new.m_deck.count ⟨rank, suit⟩ = 1) ∧
    Card.SUIT_CLUB = 0 ∧ Card.SUIT_DIAMOND = 1 ∧ Card.SUIT_HEART = 2 ∧
    Card.SUIT_SPADE = 3 ∧ Card.RANK_2 = 2 ∧ Card.RANK_ACE = 14 := by
  refine ⟨by decide, by decide, new_nodup, ?_, rfl, rfl, rfl, rfl, rfl, rfl⟩
  intro rank suit h2 h14 h3
  exact new_count rank (by omega) suit (by omega) h2

/-- The cell at index 25 holds the Ace of Diamonds and the cell at index 26
the 2 of Hearts. -/
theorem C15_constructed_deck_witness :
    Deck.new.m_deck[25]? = some ⟨Card.RANK_ACE, Card.SUIT_DIAMOND⟩ ∧
    Deck.new.m_deck[26]? = some ⟨Card.RANK_2, Card.SUIT_HEART⟩ :=
  ⟨C15_constructed_deck.2.1 25 (by decide), C15_constructed_deck.2.1 26 (by decide)⟩

/-! ## Monster Hunter: level and attack damage (C16) -/

/-- An iteration of the fight loop leaves level and attackDamage of the
player as they are, or increases both by 1. -/
theorem fightBody_level_attack (g : Game) (decision : Char) (randoms randoms1 : List Int)
    (b : Game.Body) (h : g.fightBody decision randoms = some (b, randoms1)) :
    (b.game.player.m_level = g.player.m_level ∧
      b.game.player.m_attackDamage = g.player.m_attackDamage) ∨
    (b.game.player.m_level = g.player.m_level + 1 ∧
      b.game.player.m_attackDamage = g.player.m_attackDamage + 1) := by
  unfold Game.fightBody at h
  by_cases hf : decision = 'f'
  · simp only [if_pos hf] at h
    by_cases hk : g.attackMonster.monster.isDead = true
    · simp only [Game.monsterKilled, hk, if_true, Option.some.injEq, Prod.mk.injEq] at h
      rw [← h.1]
      exact Or.inr ⟨rfl, rfl⟩
    · simp only [Game.monsterKilled, hk, Bool.false_eq_true, if_false] at h
      by_cases hp : (g.attackMonster.attackPlayer).playerKilled = true
      · simp only [hp, if_true, Option.some.injEq, Prod.mk.injEq] at h
        rw [← h.1]
        exact Or.inl ⟨rfl, rfl⟩
      · simp only [hp, Bool.false_eq_true, if_false, Option.some.injEq, Prod.mk.injEq] at h
        rw [← h.1]
        exact Or.inl ⟨rfl, rfl⟩
  · simp only [if_neg hf] at h
    by_cases hr : decision = 'r'
    · simp only [if_pos hr] at h
      cases randoms with
      | nil => simp at h
      | cons random rest =>
        simp only at h
        by_cases hfight : (!Game.run random) = true
        · simp only [hfight, if_true] at h
          by_cases hp : (g.attackPlayer).playerKilled = true
          · simp only [hp, if_true, Option.some.injEq, Prod.mk.injEq] at h
            rw [← h.1]
            exact Or.inl ⟨rfl, rfl⟩
          · simp only [hp, Bool.false_eq_true, if_false, Option.some.injEq,
              Prod.mk.injEq] at h
            rw [← h.1]
            exact Or.inl ⟨rfl, rfl⟩
        · simp only [hfight, Bool.false_eq_true, if_false, Option.some.injEq,
            Prod.mk.injEq] at h
          rw [← h.1]
          exact Or.inl ⟨rfl, rfl⟩
    · simp only [if_neg hr, Option.some.injEq, Prod.mk.injEq] at h
      rw [← h.1]
      exact Or.inl ⟨rfl, rfl⟩

/-- In every state of a session the player's attackDamage is the player's
level. -/
theorem reach_attack_level (playerName : String) (ph : Game.Phase) (g : Game)
    (h : Game.Reach playerName ph g) : g.player.m_attackDamage = g.player.m_level := by
  induction h with
  | start => rfl
  | spawnFirst g random m _ _ ih => exact ih
  | spawnNext g random m _ _ _ ih => exact ih
  | again g g1 decision randoms randoms1 _ hbody ih =>
    have hs := fightBody_level_attack g decision randoms randoms1 _ hbody
    simp only [Game.Body.game] at hs
    omega
  | leave g g1 how decision randoms randoms1 _ hbody ih =>
    have hs := fightBody_level_attack g decision randoms randoms1 _ hbody
    simp only [Game.Body.game] at hs
    omega

/-- C16: in every state of a session started from the initial player
(level 1, attackDamage 1) the player's attackDamage equals the player's
level.  `levelUp` increases both by 1; an iteration of the fight loop either
leaves both as they are or increases both by 1; making a monster current
changes neither; and `play` returns in a state in which they are equal. -/
theorem C16_attack_equals_level (playerName : String) (ph : Game.Phase) (g : Game)
    (h : Game.Reach playerName ph g) :
    g.player.m_attackDamage = g.player.m_level ∧
    (Game.new playerName).player.m_level = 1 ∧
    (Game.new playerName).player.m_attackDamage = 1 ∧
    (∀ p : Player, p.levelUp.m_level = p.m_level + 1 ∧
      p.levelUp.m_attackDamage = p.m_attackDamage + 1) ∧
    (∀ (p : Player) (x : Int),
      (p.addGold x).m_level = p.m_level ∧ (p.addGold x).m_attackDamage = p.m_attackDamage ∧
      (p.reduceHealth x).m_level = p.m_level ∧
      (p.reduceHealth x).m_attackDamage = p.m_attackDamage) ∧
    (∀ (decision : Char) (randoms randoms1 : List Int) (b : Game.Body),
      g.fightBody decision randoms = some (b, randoms1) →
      (b.game.player.m_level = g.player.m_level ∧
        b.game.player.m_attackDamage = g.player.m_attackDamage) ∨
      (b.game.player.m_level = g.player.m_level + 1 ∧
        b.game.player.m_attackDamage = g.player.m_attackDamage + 1)) ∧
    (∀ (fuel : Nat) (cin : List Char) (randoms : List Int) (out : Game.Played),
      Game.play fuel (Game.new playerName) cin randoms = some out →
      out.game.player.m_attackDamage = out.game.player.m_level) := by
  refine ⟨reach_attack_level playerName ph g h, rfl, rfl, fun p => ⟨rfl, rfl⟩,
    fun p x => ⟨rfl, rfl, rfl, rfl⟩, ?_, ?_⟩
  · intro decision randoms randoms1 b hb
    exact fightBody_level_attack g decision randoms randoms1 b hb
  · intro fuel cin randoms out hplay
    obtain ⟨hr, -, -⟩ :=
      play_reach playerName fuel _ cin randoms out (Or.inl Game.Reach.start) hplay
    exact reach_attack_level playerName _ _ hr

/-- After the initial player has killed a Slime, attackDamage and level are
both 2. -/
theorem C16_attack_equals_level_witness :
    (((Game.new "ann").player.levelUp).addGold 10).m_attackDamage =
      (((Game.new "ann").player.levelUp).addGold 10).m_level :=
  (C16_attack_equals_level "ann" Game.Phase.fought
    { player := ((Game.new "ann").player.levelUp).addGold 10,
      monster := ⟨⟨"slime", 's', 0, 10, 1⟩⟩ }
    (Game.Reach.leave { Game.new "ann" with monster := ⟨⟨"slime", 's', 1, 10, 1⟩⟩ } _
      Game.Exit.monsterKilled 'f' [] []
      (Game.Reach.spawnFirst (Game.new "ann") 2 ⟨⟨"slime", 's', 1, 10, 1⟩⟩
        Game.Reach.start rfl) rfl)).1

/-! ## The random number helper (C13) -/

/-- The integral part, rounded toward zero, of the quotient by `n + 1` of
`rand * (max - min + 1) + min * (n + 1)` lies between `min` and `max` when
`rand` lies between 0 and `n` and `max` is not negative. -/
theorem tdiv_range (n rand min max : Int) (h0 : 0 ≤ rand) (hr : rand ≤ n)
    (hmm : min ≤ max) (hmax : 0 ≤ max) :
    min ≤ Int.tdiv (rand * (max - min + 1) + min * (n + 1)) (n + 1) ∧
    Int.tdiv (rand * (max - min + 1) + min * (n + 1)) (n + 1) ≤ max := by
  have hN : 0 < n + 1 := by omega
  have hq0 : 0 ≤ rand * (max - min + 1) := Int.mul_nonneg h0 (by omega)
  have hq1 : rand * (max - min + 1) ≤ n * (max - min + 1) :=
    Int.mul_le_mul_of_nonneg_right hr (by omega)
  have hlow : min * (n + 1) ≤ rand * (max - min + 1) + min * (n + 1) := by omega
  have hhigh : rand * (max - min + 1) + min * (n + 1) < (max + 1) * (n + 1) := by
    have e : (max + 1) * (n + 1) = n * (max - min + 1) + (max - min + 1) + min * (n + 1) := by
      ring
    rw [e]
    omega
  by_cases ha : 0 ≤ rand * (max - min + 1) + min * (n + 1)
  · rw [Int.tdiv_eq_ediv ha (by omega)]
    constructor
    · exact Int.le_ediv_of_mul_le hN hlow
    · have := Int.ediv_lt_of_lt_mul hN hhigh
      omega
  · have hneg : 0 ≤ -(rand * (max - min + 1) + min * (n + 1)) := by omega
    have e : Int.tdiv (rand * (max - min + 1) + min * (n + 1)) (n + 1) =
        -((-(rand * (max - min + 1) + min * (n + 1))) / (n + 1)) := by
      rw [← Int.tdiv_eq_ediv hneg (by omega), Int.neg_tdiv, Int.neg_neg]
    rw [e]
    have h1 : 0 ≤ (-(rand * (max - min + 1) + min * (n + 1))) / (n + 1) :=
      Int.ediv_nonneg hneg (by omega)
    have h2 : (-(rand * (max - min + 1) + min * (n + 1))) / (n + 1) < -min + 1 := by
      apply Int.ediv_lt_of_lt_mul hN
      have e2 : (-min + 1) * (n + 1) = -(min * (n + 1)) + (n + 1) := by ring
      rw [e2]
      omega
    constructor <;> omega

/-- Where the arithmetic is exact and the upper end of the range is not
negative, `getRandomNumber` returns a number of the range. -/
theorem getRandomNumber_range (bits : Nat) (rand min max : Int)
    (hexact : getRandomNumberExact bits rand min max) (hmm : min ≤ max) (hmax : 0 ≤ max) :
    ∃ n : Int, getRandomNumber bits rand min max = some n ∧ min ≤ n ∧ n ≤ max := by
  have hx := hexact
  obtain ⟨-, h0, hr, hmin, -, -, hmaxi, -⟩ := hx
  obtain ⟨hlo, hhi⟩ := tdiv_range (RAND_MAX bits) rand min max h0 hr hmm hmax
  refine ⟨_, ?_, hlo, hhi⟩
  unfold getRandomNumber
  rw [if_pos hexact]
  simp only
  rw [if_pos ⟨by omega, by omega⟩]

/-- The two copies of the helper are the same function. -/
theorem Deck_getRandomNumber_eq (bits : Nat) (rand min max : Int) :
    Deck.getRandomNumber bits rand min max = getRandomNumber bits rand min max :=
  rfl

/-- No value of `rand()` exceeds `2 ^ 31 - 1`. -/
theorem RAND_MAX_le (bits : Nat) (h : bits ≤ 31) :
    0 ≤ RAND_MAX bits ∧ RAND_MAX bits ≤ 2147483647 := by
  unfold RAND_MAX
  have h1 : (2 : Int) ^ bits ≤ 2 ^ 31 := by
    have : (2 : Nat) ^ bits ≤ 2 ^ 31 := Nat.pow_le_pow_right (by decide) h
    exact_mod_cast this
  have h2 : (0 : Int) < 2 ^ bits := by positivity
  have h3 : (2 : Int) ^ 31 = 2147483648 := by norm_num
  omega

/-- The arithmetic is exact at the three calls of the two programs. -/
theorem getRandomNumberExact_calls (bits : Nat) (rand : Int) (hbits : bits ≤ 31)
    (h0 : 0 ≤ rand) (hr : rand ≤ RAND_MAX bits) :
    getRandomNumberExact bits rand 0 51 ∧ getRandomNumberExact bits rand 0 2 ∧
    getRandomNumberExact bits rand 1 100 := by
  have hR := RAND_MAX_le bits hbits
  unfold getRandomNumberExact
  refine ⟨⟨hbits, h0, hr, ?_⟩, ⟨hbits, h0, hr, ?_⟩, ⟨hbits, h0, hr, ?_⟩⟩ <;>
    (refine ⟨?_, ?_, ?_, ?_, ?_, ?_, ?_, ?_, ?_, ?_, ?_, ?_⟩ <;> omega)

/-- C13 as stated fails on the code: for the range from -1 to -1 and the
generator output 1 the arithmetic is exact and `getRandomNumber` returns 0,
which is above the upper end of the range, whether `RAND_MAX` is 2147483647
or 32767 and in both copies of the function: the value
-1 + 1 / (RAND_MAX + 1) lies strictly between -1 and 0, and the conversion
to `int` rounds it toward zero. -/
theorem C13_getRandomNumber_negative_range :
    RAND_MAX 31 = 2147483647 ∧ RAND_MAX 15 = 32767 ∧
    getRandomNumberExact 31 1 (-1) (-1) ∧
    getRandomNumber 31 1 (-1) (-1) = some 0 ∧
    getRandomNumber 15 1 (-1) (-1) = some 0 ∧
    Deck.getRandomNumber 31 1 (-1) (-1) = some 0 ∧
    ¬ ((0 : Int) ≤ -1) ∧
    getRandomNumber 31 2147483647 (-5) (-2) = some (-1) := by
  decide

/-- C13, amended: for every `min <= max` with `max` not negative and every
generator output between 0 and `RAND_MAX`, on the inputs on which the
arithmetic of the source is exact, `getRandomNumber` returns an integer
between `min` and `max`.  These inputs include the three calls that the two
programs make, `(0, 51)`, `(0, MAX_TYPES - 1)` and `(1, 100)`, for every
generator output. -/
theorem C13_getRandomNumber_range (bits : Nat) (rand min max : Int)
    (hexact : getRandomNumberExact bits rand min max) (hmm : min ≤ max) (hmax : 0 ≤ max) :
    (∃ n : Int, getRandomNumber bits rand min max = some n ∧ min ≤ n ∧ n ≤ max) ∧
    (∃ n : Int, Deck.getRandomNumber bits rand min max = some n ∧ min ≤ n ∧ n ≤ max) ∧
    (∀ r : Int, 0 ≤ r → r ≤ RAND_MAX bits →
      (∃ n : Int, Deck.getRandomNumber bits r 0 51 = some n ∧ 0 ≤ n ∧ n ≤ 51) ∧
      (∃ n : Int, getRandomNumber bits r 0 ((Monster.MAX_TYPES : Int) - 1) = some n ∧
        0 ≤ n ∧ n ≤ 2) ∧
      (∃ n : Int, getRandomNumber bits r 1 100 = some n ∧ 1 ≤ n ∧ n ≤ 100)) := by
  refine ⟨getRandomNumber_range bits rand min max hexact hmm hmax,
    getRandomNumber_range bits rand min max hexact hmm hmax, ?_⟩
  intro r h0 hr
  obtain ⟨e1, e2, e3⟩ := getRandomNumberExact_calls bits r hexact.1 h0 hr
  exact ⟨getRandomNumber_range bits r 0 51 e1 (by decide) (by decide),
    getRandomNumber_range bits r 0 2 e2 (by decide) (by decide),
    getRandomNumber_range bits r 1 100 e3 (by decide) (by decide)⟩

/-- With `RAND_MAX = 2147483647`, the largest generator output gives 100 in
the range from 1 to 100. -/
theorem C13_getRandomNumber_range_witness :
    getRandomNumberExact 31 2147483647 1 100 ∧
    ∃ n : Int, getRandomNumber 31 2147483647 1 100 = some n ∧ 1 ≤ n ∧ n ≤ 100 :=
  ⟨by decide,
   (C13_getRandomNumber_range 31 2147483647 1 100 (by decide) (by decide) (by decide)).1⟩

/-! ## Monster Hunter: the level written at a kill (C18) -/

/-- When the monster is dead, the level written by `monsterKilled` is the
level before the call, and the level after the call is one more. -/
theorem monsterKilled_writes_old_level (g : Game) (h : g.monster.isDead = true) :
    g.monsterKilledLevelWritten = some g.player.m_level ∧
    g.monsterKilled.1 = true ∧
    g.monsterKilled.2.player.m_level = g.player.m_level + 1 := by
  refine ⟨?_, ?_, ?_⟩
  · simp only [Game.monsterKilledLevelWritten, h, if_true, Player.getLevel]
  · simp only [Game.monsterKilled, h, if_true]
  · simp only [Game.monsterKilled, h, if_true]
    rfl

/-- C18 fails on the code: when the initial player (level 1) kills a Slime,
`monsterKilled` writes "You are now level 1", the level held before the
level-up step, while the player's level after that step is 2. -/
theorem C18_level_written_is_old_level :
    (Game.attackMonster
        { Game.new "ann" with monster := ⟨⟨"slime", 's', 1, 10, 1⟩⟩ }).monsterKilledLevelWritten
      = some 1 ∧
    (Game.attackMonster
        { Game.new "ann" with monster := ⟨⟨"slime", 's', 1, 10, 1⟩⟩ }).monsterKilled.1 = true ∧
    (Game.attackMonster
        { Game.new "ann" with monster := ⟨⟨"slime", 's', 1, 10, 1⟩⟩ }).monsterKilled.2.player.m_level
      = 2 := by
  decide

/-! ## Blackjack: a starting hand above 21 (C19) -/

/-- A player who starts on two Aces and stands at once wins whenever the
round returns: the total 22 is not tested before the dealer's turn, and it
is above every dealer total that does not exceed 21. -/
theorem two_aces_stand_wins (d : Deck) (rest : List Char) (card0 card1 card2 : Card)
    (r : Blackjack.Round)
    (h0 : d.m_deck[0]? = some card0) (h1 : d.m_deck[1]? = some card1)
    (h2 : d.m_deck[2]? = some card2)
    (ha1 : card1.m_rank = Card.RANK_ACE) (ha2 : card2.m_rank = Card.RANK_ACE)
    (h : Blackjack.playBlackjack d ('s' :: rest) = some r) :
    r.win = true ∧ r.playerTotal = 22 ∧ r.bust = false := by
  have hv : ∀ c : Card, c.m_rank = Card.RANK_ACE → c.getCardValue = 11 := by
    rintro ⟨rk, s⟩ hc
    simp only [Card.RANK_ACE] at hc
    subst hc
    simp [Card.getCardValue]
  rw [playBlackjack_unfold d _ card0 card1 card2 h0 h1 h2, hv card1 ha1, hv card2 ha2] at h
  have hloop : Blackjack.playerLoop d (d.m_deck.length + 1) (11 + 11) 3 ('s' :: rest) =
      some ⟨11 + 11, 3, 's', rest, false⟩ := by
    rw [Blackjack.playerLoop]
    simp [Blackjack.getPlayerChoice]
  simp only [hloop, Bool.false_eq_true, if_false] at h
  cases hd : Blackjack.dealerLoop d (d.m_deck.length + 1) card0.getCardValue 3 with
  | none => simp [hd] at h
  | some q =>
    obtain ⟨dealerTotal1, ptr4⟩ := q
    simp only [hd] at h
    by_cases hw : dealerTotal1 > 21
    · simp only [if_pos hw, Option.some.injEq] at h
      subst h
      exact ⟨rfl, rfl, rfl⟩
    · simp only [if_neg hw, Option.some.injEq] at h
      subst h
      refine ⟨?_, rfl, rfl⟩
      simp only [decide_eq_true_eq]
      omega

/-- C19 fails on the code: with the swap indices 0, 12, 25, 3, 4, ..., 51 the
shuffled deck starts with the 2 of Clubs, the Ace of Clubs and the Ace of
Diamonds; the player holds 22 and stands, the dealer draws 5, 6 and 7 and
ends on 20, and `playBlackjack` returns win with the player total 22. -/
theorem C19_two_aces_win :
    ((Blackjack.new ([0, 12, 25] ++ (List.range 52).drop 3)).bind
      (fun deck => Blackjack.playBlackjack deck ['s'])) =
      some ⟨true, 22, 20, 6, 's', [], false⟩ ∧
    Blackjack.main ([0, 12, 25] ++ (List.range 52).drop 3) ['s'] = some true := by
  decide

/-! ## Monster Hunter: the two ends of a session (C20) -/

/-- `playerKilled` returns true exactly when the player's health is at most 0. -/
theorem playerKilled_iff (g : Game) : g.playerKilled = true ↔ g.player.m_health ≤ 0 := by
  simp [Game.playerKilled, Creature.isDead]

/-- An iteration of the fight loop entered by a living player either goes on
with a living player, or ends the encounter: by the death of the player,
with the level that the player had, or otherwise with a living player. -/
theorem fightBody_health (g : Game) (decision : Char) (randoms randoms1 : List Int)
    (b : Game.Body) (h : g.fightBody decision randoms = some (b, randoms1))
    (halive : 0 < g.player.m_health) :
    (∀ g1, b = Game.Body.again g1 → 0 < g1.player.m_health) ∧
    (∀ g1 how, b = Game.Body.leave g1 how →
      (how = Game.Exit.playerKilled ∧ g1.player.m_health ≤ 0 ∧
        g1.player.m_level = g.player.m_level) ∨
      (how ≠ Game.Exit.playerKilled ∧ 0 < g1.player.m_health)) := by
  unfold Game.fightBody at h
  by_cases hf : decision = 'f'
  · simp only [if_pos hf] at h
    by_cases hk : g.attackMonster.monster.isDead = true
    · simp only [Game.monsterKilled, hk, if_true, Option.some.injEq, Prod.mk.injEq] at h
      rw [← h.1]
      refine ⟨by simp, ?_⟩
      intro g1 how hg1
      simp only [Game.Body.leave.injEq] at hg1
      rw [← hg1.1, ← hg1.2]
      exact Or.inr ⟨by decide, halive⟩
    · simp only [Game.monsterKilled, hk, Bool.false_eq_true, if_false] at h
      by_cases hp : (g.attackMonster.attackPlayer).playerKilled = true
      · simp only [hp, if_true, Option.some.injEq, Prod.mk.injEq] at h
        rw [← h.1]
        refine ⟨by simp, ?_⟩
        intro g1 how hg1
        simp only [Game.Body.leave.injEq] at hg1
        rw [← hg1.1, ← hg1.2]
        exact Or.inl ⟨rfl, (playerKilled_iff _).mp hp, rfl⟩
      · simp only [hp, Bool.false_eq_true, if_false, Option.some.injEq, Prod.mk.injEq] at h
        rw [← h.1]
        refine ⟨?_, by simp⟩
        intro g1 hg1
        simp only [Game.Body.again.injEq] at hg1
        rw [← hg1]
        have := (playerKilled_iff (g.attackMonster.attackPlayer)).not.mp hp
        omega
  · simp only [if_neg hf] at h
    by_cases hr : decision = 'r'
    · simp only [if_pos hr] at h
      cases randoms with
      | nil => simp at h
      | cons random rest =>
        simp only at h
        by_cases hfight : (!Game.run random) = true
        · simp only [hfight, if_true] at h
          by_cases hp : (g.attackPlayer).playerKilled = true
          · simp only [hp, if_true, Option.some.injEq, Prod.mk.injEq] at h
            rw [← h.1]
            refine ⟨by simp, ?_⟩
            intro g1 how hg1
            simp only [Game.Body.leave.injEq] at hg1
            rw [← hg1.1, ← hg1.2]
            exact Or.inl ⟨rfl, (playerKilled_iff _).mp hp, rfl⟩
          · simp only [hp, Bool.false_eq_true, if_false, Option.some.injEq,
              Prod.mk.injEq] at h
            rw [← h.1]
            refine ⟨?_, by simp⟩
            intro g1 hg1
            simp only [Game.Body.again.injEq] at hg1
            rw [← hg1]
            have := (playerKilled_iff g.attackPlayer).not.mp hp
            omega
        · simp only [hfight, Bool.false_eq_true, if_false, Option.some.injEq,
            Prod.mk.injEq] at h
          rw [← h.1]
          refine ⟨by simp, ?_⟩
          intro g1 how hg1
          simp only [Game.Body.leave.injEq] at hg1
          rw [← hg1.1, ← hg1.2]
          exact Or.inr ⟨by decide, halive⟩
    · simp only [if_neg hr, Option.some.injEq, Prod.mk.injEq] at h
      rw [← h.1]
      refine ⟨?_, by simp⟩
      intro g1 hg1
      simp only [Game.Body.again.injEq] at hg1
      rw [← hg1]
      exact halive

/-- An encounter entered by a living player ends by the death of the
player, at the level held when the encounter began, or with a living player. -/
theorem fightMonster_health : ∀ (cin : List Char) (g : Game) (randoms : List Int)
    (r : Game.Fought),
    0 < g.player.m_health → g.fightMonster cin randoms = some r →
    (r.how = Game.Exit.playerKilled ∧ r.game.player.m_health ≤ 0 ∧
      r.game.player.m_level = g.player.m_level) ∨
    (r.how ≠ Game.Exit.playerKilled ∧ 0 < r.game.player.m_health)
  | [], _, _, _, _, h => by simp [Game.fightMonster] at h
  | decision :: cin, g, randoms, r, halive, h => by
    rw [Game.fightMonster] at h
    cases hb : g.fightBody decision randoms with
    | none => simp [hb] at h
    | some q =>
      obtain ⟨b, randoms1⟩ := q
      obtain ⟨ha, hl⟩ := fightBody_health g decision randoms randoms1 b hb halive
      cases b with
      | again g1 =>
        simp only [hb] at h
        have hlev := (fightBody_level g decision randoms randoms1 _ hb).1 g1 rfl
        rcases fightMonster_health cin g1 randoms1 r (ha g1 rfl) h with h1 | h1
        · exact Or.inl ⟨h1.1, h1.2.1, by rw [h1.2.2, hlev]⟩
        · exact Or.inr h1
      | leave g1 how =>
        simp only [hb, Option.some.injEq] at h
        subst h
        exact hl g1 how rfl

/-- A session state: the player is alive before the first monster and
while a monster is fought, and a player found dead after an encounter is
below level 20. -/
theorem reach_health (playerName : String) (ph : Game.Phase) (g : Game)
    (h : Game.Reach playerName ph g) :
    (ph ≠ Game.Phase.fought → 0 < g.player.m_health) ∧
    (ph = Game.Phase.fought → g.player.m_health ≤ 0 → g.player.m_level < 20) := by
  induction h with
  | start =>
    have h1 : (Game.new playerName).player.m_health = 10 := rfl
    exact ⟨fun _ => by rw [h1]; decide, by simp⟩
  | spawnFirst g random m _ _ ih => exact ⟨fun _ => ih.1 (by simp), by simp⟩
  | spawnNext g random m _ hagain _ ih =>
    refine ⟨fun _ => ?_, by simp⟩
    have hnd : ¬ (g.player.m_health ≤ 0) := by
      intro hd
      simp [Game.playAgain, Creature.isDead, hd] at hagain
    show 0 < g.player.m_health
    omega
  | again g g1 decision randoms randoms1 _ hbody ih =>
    exact ⟨fun _ => (fightBody_health g decision randoms randoms1 _ hbody (ih.1 (by simp))).1
      g1 rfl, by simp⟩
  | leave g g1 how decision randoms randoms1 hg hbody ih =>
    refine ⟨by simp, fun _ hd => ?_⟩
    have hlt := (reach_level playerName _ g hg).2.2.1 rfl
    rcases (fightBody_health g decision randoms randoms1 _ hbody (ih.1 (by simp))).2
      g1 how rfl with h1 | h1
    · rw [h1.2.2]
      exact hlt
    · omega

/-- The exit of the last encounter of a session entered by a living player
is the death of the player exactly when the player is dead at the end. -/
theorem play_last : ∀ (fuel : Nat) (g : Game) (cin : List Char) (randoms : List Int)
    (out : Game.Played),
    0 < g.player.m_health → Game.play fuel g cin randoms = some out →
    (out.last = Game.Exit.playerKilled ↔ out.game.player.m_health ≤ 0)
  | 0, _, _, _, _, _, h => by simp [Game.play] at h
  | fuel + 1, g, cin, randoms, out, halive, h => by
    rw [Game.play] at h
    cases hb : g.playBody cin randoms with
    | none => simp [hb] at h
    | some r =>
      simp only [hb] at h
      have hr : (r.how = Game.Exit.playerKilled ∧ r.game.player.m_health ≤ 0 ∧
            r.game.player.m_level = g.player.m_level) ∨
          (r.how ≠ Game.Exit.playerKilled ∧ 0 < r.game.player.m_health) := by
        unfold Game.playBody at hb
        cases randoms with
        | nil => simp at hb
        | cons random randoms1 =>
          simp only at hb
          cases hm : Monster.getRandomMonster random with
          | none => simp [hm] at hb
          | some m =>
            simp only [hm] at hb
            exact fightMonster_health cin { g with monster := m } randoms1 r halive hb
      by_cases hagain : r.game.playAgain = true
      · simp only [hagain, if_true] at h
        have hnd : ¬ (r.game.player.m_health ≤ 0) := by
          intro hd
          simp [Game.playAgain, Creature.isDead, hd] at hagain
        exact play_last fuel r.game r.cin r.randoms out (by omega) h
      · simp only [hagain, Bool.false_eq_true, if_false, Option.some.injEq] at h
        subst h
        rcases hr with h1 | h1
        · exact ⟨fun _ => h1.2.1, fun _ => h1.1⟩
        · refine ⟨fun hk => absurd hk h1.1, fun hd => ?_⟩
          have hd1 : r.game.player.m_health ≤ 0 := hd
          omega

/-- C20: the two ends of a session exclude each other.  In every state of a
session started from the initial player at which the session loop stops,
exactly one of `isDead` (health at most 0) and `hasWon` (level 20) holds.
Accordingly, when `play` returns, exactly one of the two holds, the last
encounter ended by the death of the player (the death report was written)
exactly when the player is dead, the win report is written exactly when the
player has won, and the two reports are never both written. -/
theorem C20_outcomes_exclusive (playerName : String) :
    (∀ g : Game, Game.Reach playerName Game.Phase.fought g → g.playAgain = false →
      (g.player.isDead = true ∧ g.player.hasWon = false) ∨
      (g.player.isDead = false ∧ g.player.hasWon = true)) ∧
    (∀ (fuel : Nat) (cin : List Char) (randoms : List Int) (out : Game.Played),
      Game.play fuel (Game.new playerName) cin randoms = some out →
      ((out.game.player.isDead = true ∧ out.game.player.hasWon = false) ∨
        (out.game.player.isDead = false ∧ out.game.player.hasWon = true)) ∧
      (out.game.player.isDead = true ↔ out.game.player.m_health ≤ 0) ∧
      (out.game.player.hasWon = true ↔ out.game.player.m_level = 20) ∧
      (out.last = Game.Exit.playerKilled ↔ out.game.player.isDead = true) ∧
      (out.wonReport = true ↔ out.game.player.hasWon = true) ∧
      ¬ (out.last = Game.Exit.playerKilled ∧ out.wonReport = true)) := by
  have hstop : ∀ g : Game, Game.Reach playerName Game.Phase.fought g → g.playAgain = false →
      (g.player.isDead = true ∧ g.player.hasWon = false) ∨
      (g.player.isDead = false ∧ g.player.hasWon = true) := by
    intro g hg hstop
    have hh := (reach_health playerName _ g hg).2 rfl
    by_cases hd : g.player.m_health ≤ 0
    · have hlt := hh hd
      left
      constructor
      · simp [Creature.isDead, hd]
      · simp only [Player.hasWon, decide_eq_false_iff_not]
        omega
    · right
      have hdead : g.player.isDead = false := by simp [Creature.isDead, hd]
      refine ⟨hdead, ?_⟩
      simp only [Game.playAgain, hdead, Bool.not_false, Bool.true_and,
        Bool.not_eq_eq_eq_not, Bool.not_false] at hstop
      exact hstop
  refine ⟨hstop, ?_⟩
  intro fuel cin randoms out hplay
  obtain ⟨hr, hst, hw⟩ :=
    play_reach playerName fuel _ cin randoms out (Or.inl Game.Reach.start) hplay
  have hone := hstop out.game hr hst
  have hlast := play_last fuel (Game.new playerName) cin randoms out
    (show (0 : Int) < 10 by decide) hplay
  have hdead : out.game.player.isDead = true ↔ out.game.player.m_health ≤ 0 := by
    simp [Creature.isDead]
  refine ⟨hone, hdead, by simp [Player.hasWon], hlast.trans hdead.symm, by rw [hw], ?_⟩
  rintro ⟨hk, hwon⟩
  have hd := (hlast.trans hdead.symm).mp hk
  rw [hw] at hwon
  rcases hone with h1 | h1
  · rw [h1.2] at hwon
    exact absurd hwon (by decide)
  · rw [h1.1] at hd
    exact absurd hd (by decide)

/-- The initial player fights a Dragon three times and dies at level 1: the
session ends with the player dead and not a winner. -/
theorem C20_outcomes_exclusive_witness :
    (Game.play 5 (Game.new "ann") ['f', 'f', 'f'] [0]).map
        (fun out => (out.last, out.game.player.m_health, out.game.player.m_level,
          out.wonReport)) = some (Game.Exit.playerKilled, -2, 1, false) ∧
    ((true = true ∧ false = false) ∨ (true = false ∧ false = true)) :=
  ⟨by decide,
   ((C20_outcomes_exclusive "ann").2 5 ['f', 'f', 'f'] [0]
      ⟨Game.Exit.playerKilled,
        { player := { Player.new "ann" 1 with m_health := -2 },
          monster := ⟨⟨"dragon", 'D', 17, 100, 4⟩⟩ }, [], [], false⟩ (by decide)).1⟩

/-! ## Blackjack: the number of cards of a round (C17) -/

/-- When every card is worth at least 2, a run of `j` cards inside the deck
is worth at least `2 * j`. -/
theorem valueSum_ge (d : Deck) (hval : ∀ c ∈ d.m_deck, 2 ≤ c.getCardValue) :
    ∀ (j ptr : Nat), ptr + j ≤ d.m_deck.length → 2 * (j : Int) ≤ d.valueSum ptr j
  | 0, _, _ => by simp [Deck.valueSum]
  | j + 1, ptr, h => by
    have hlt : ptr < d.m_deck.length := by omega
    have hc : d.m_deck[ptr]? = some d.m_deck[ptr] := List.getElem?_eq_getElem hlt
    rw [valueSum_succ d ptr j _ hc]
    have h2 := hval _ (List.getElem_mem hlt)
    have ih := valueSum_ge d hval j (ptr + 1) (by omega)
    omega

/-- When every card is worth at least 2, a dealer who starts from a total of
at least 2 draws at most 8 cards. -/
theorem dealerLoop_draws (d : Deck) (hval : ∀ c ∈ d.m_deck, 2 ≤ c.getCardValue)
    (fuel : Nat) (dealerTotal : Int) (ptr : Nat) (final : Int) (ptr4 : Nat)
    (h : Blackjack.dealerLoop d fuel dealerTotal ptr = some (final, ptr4))
    (h2 : 2 ≤ dealerTotal) : ptr4 ≤ ptr + 8 := by
  obtain ⟨n, h1, -, -, h4, h5⟩ := dealerLoop_some d fuel dealerTotal ptr final ptr4 h
  by_contra hn
  have h8 : 8 < n := by omega
  have hs := h4 8 h8
  have hin := h5 8 h8
  have hge := valueSum_ge d hval 8 ptr (by omega)
  omega

/-- When every card is worth at least 2 and the player total is at least
twice the number of cards the player holds, the player loop that ends on a
stand has left the pointer where it was or at 11 at most, and the loop that
ends on a bust has moved it by one or left it at 12 at most. -/
theorem playerLoop_cards (d : Deck) (hval : ∀ c ∈ d.m_deck, 2 ≤ c.getCardValue) :
    ∀ (fuel : Nat) (playerTotal : Int) (ptr : Nat) (cin : List Char) (t : Blackjack.Turn),
    Blackjack.playerLoop d fuel playerTotal ptr cin = some t →
    2 * (ptr : Int) ≤ playerTotal + 2 →
    (t.bust = false → t.ptr = ptr ∨ t.ptr ≤ 11) ∧
    (t.bust = true → t.ptr = ptr + 1 ∨ t.ptr ≤ 12)
  | 0, _, _, _, _, h, _ => by simp [Blackjack.playerLoop] at h
  | fuel + 1, playerTotal, ptr, cin, t, h, hinv => by
    rw [Blackjack.playerLoop] at h
    cases hg : Blackjack.getPlayerChoice cin with
    | none => simp [hg] at h
    | some q =>
      obtain ⟨choice, cin1⟩ := q
      simp only [hg] at h
      by_cases hs : choice = 's'
      · simp only [if_pos hs, Option.some.injEq] at h
        subst h
        exact ⟨fun _ => Or.inl rfl, by simp⟩
      · simp only [if_neg hs, Deck.dealCard] at h
        cases hc : d.m_deck[ptr]? with
        | none => simp [hc] at h
        | some card =>
          simp only [hc] at h
          have hv : 2 ≤ card.getCardValue := by
            obtain ⟨hlt, hget⟩ := List.getElem?_eq_some_iff.mp hc
            rw [← hget]
            exact hval _ (List.getElem_mem hlt)
          by_cases hb : playerTotal + card.getCardValue > 21
          · simp only [if_pos hb, Option.some.injEq] at h
            subst h
            exact ⟨by simp, fun _ => Or.inl rfl⟩
          · simp only [if_neg hb] at h
            obtain ⟨ih1, ih2⟩ := playerLoop_cards d hval fuel _ (ptr + 1) cin1 t h
              (by push_cast; omega)
            constructor
            · intro hf
              rcases ih1 hf with e | e
              · right; omega
              · right; exact e
            · intro hf
              rcases ih2 hf with e | e
              · right; omega
              · right; exact e

/-- An input that holds an `s` makes `getPlayerChoice` return: either that
`s` is the choice, or an `h` before it is, and the `s` is still to come. -/
theorem getPlayerChoice_of_mem : ∀ (cin : List Char), 's' ∈ cin →
    ∃ (choice : Char) (cin1 : List Char),
      Blackjack.getPlayerChoice cin = some (choice, cin1) ∧
      (choice = 's' ∨ (choice = 'h' ∧ 's' ∈ cin1))
  | [], h => by simp at h
  | c :: cin, h => by
    by_cases hc : c ≠ 'h' ∧ c ≠ 's'
    · have hmem : 's' ∈ cin := by
        rcases List.mem_cons.mp h with e | e
        · exact absurd e.symm hc.2
        · exact e
      obtain ⟨choice, cin1, h1, h2⟩ := getPlayerChoice_of_mem cin hmem
      exact ⟨choice, cin1, by rw [Blackjack.getPlayerChoice, if_pos hc, h1], h2⟩
    · refine ⟨c, cin, by rw [Blackjack.getPlayerChoice, if_neg hc], ?_⟩
      by_cases hs : c = 's'
      · exact Or.inl hs
      · right
        constructor
        · by_contra hh
          exact hc ⟨hh, hs⟩
        · rcases List.mem_cons.mp h with e | e
          · exact absurd e.symm hs
          · exact e

/-- On a deck of at least 20 cards worth between 2 and 11 each, the player
loop returns for every input that holds an `s`: the cards it needs are
there and its fuel is not used up. -/
theorem playerLoop_total (d : Deck) (hval : ∀ c ∈ d.m_deck, 2 ≤ c.getCardValue)
    (hlen : 20 ≤ d.m_deck.length) :
    ∀ (fuel : Nat) (playerTotal : Int) (ptr : Nat) (cin : List Char),
    's' ∈ cin → 2 * (ptr : Int) ≤ playerTotal + 2 → playerTotal ≤ 22 → 13 ≤ fuel + ptr →
    ∃ t : Blackjack.Turn, Blackjack.playerLoop d fuel playerTotal ptr cin = some t
  | 0, _, _, _, _, hinv, h22, hfuel => by omega
  | fuel + 1, playerTotal, ptr, cin, hmem, hinv, h22, hfuel => by
    obtain ⟨choice, cin1, hg, hch⟩ := getPlayerChoice_of_mem cin hmem
    rw [Blackjack.playerLoop]
    simp only [hg]
    rcases hch with hs | ⟨hh, hmem1⟩
    · exact ⟨_, by rw [if_pos hs]⟩
    · have hns : ¬ (choice = 's') := by
        rw [hh]
        decide
      have hlt : ptr < d.m_deck.length := by omega
      have hc : d.m_deck[ptr]? = some d.m_deck[ptr] := List.getElem?_eq_getElem hlt
      have hv := hval _ (List.getElem_mem hlt)
      simp only [if_neg hns, Deck.dealCard, hc]
      by_cases hb : playerTotal + (d.m_deck[ptr]).getCardValue > 21
      · exact ⟨_, by rw [if_pos hb]⟩
      · rw [if_neg hb]
        exact playerLoop_total d hval hlen fuel _ (ptr + 1) cin1 hmem1
          (by push_cast; omega) (by omega) (by omega)

/-- On a deck whose cards are worth at least 2 each, the dealer loop
returns when enough cards and enough fuel are left for the draws that its
total still allows. -/
theorem dealerLoop_total (d : Deck) (hval : ∀ c ∈ d.m_deck, 2 ≤ c.getCardValue) :
    ∀ (fuel : Nat) (dealerTotal : Int) (ptr : Nat), 1 ≤ fuel →
    (dealerTotal < 17 → 2 * (ptr : Int) + 18 - dealerTotal ≤ 2 * (d.m_deck.length : Int) ∧
      20 - dealerTotal ≤ 2 * (fuel : Int)) →
    ∃ q : Int × Nat, Blackjack.dealerLoop d fuel dealerTotal ptr = some q
  | 0, _, _, h1, _ => by omega
  | fuel + 1, dealerTotal, ptr, _, hroom => by
    rw [Blackjack.dealerLoop]
    by_cases ht : dealerTotal < 17
    · obtain ⟨hr1, hr2⟩ := hroom ht
      have hlt : ptr < d.m_deck.length := by omega
      have hc : d.m_deck[ptr]? = some d.m_deck[ptr] := List.getElem?_eq_getElem hlt
      have hv := hval _ (List.getElem_mem hlt)
      simp only [if_pos ht, Deck.dealCard, hc]
      exact dealerLoop_total d hval fuel _ (ptr + 1) (by omega)
        (fun _ => ⟨by push_cast; omega, by push_cast at hr2; omega⟩)
    · exact ⟨_, by rw [if_neg ht]⟩

/-- C17: on a deck of 52 cards worth between 2 and 11 each, in whatever
order, and for every input, a round that returns has dealt at most 20 cards
(at most 19, in fact: the dealer's first card, at most ten cards of a player
who stands or eleven of a player who busts, and at most eight draws of the
dealer); every call of `dealCard` of the round found a card of the deck, so
that none of them was a 53rd call; and the round does return whenever the
input holds a stand decision. -/
theorem C17_cards_per_round (d : Deck) (hlen : d.m_deck.length = 52)
    (hval : ∀ c ∈ d.m_deck, 2 ≤ c.getCardValue ∧ c.getCardValue ≤ 11)
    (cin : List Char) :
    (∀ r : Blackjack.Round, Blackjack.playBlackjack d cin = some r →
      r.ptr ≤ 19 ∧ r.ptr ≤ 20 ∧
      (∀ k : Nat, k < r.ptr → ∃ card : Card, d.dealCard k = (some card, k + 1))) ∧
    ('s' ∈ cin → ∃ r : Blackjack.Round, Blackjack.playBlackjack d cin = some r) := by
  have hval2 : ∀ c ∈ d.m_deck, 2 ≤ c.getCardValue := fun c hc => (hval c hc).1
  have hcard : ∀ (k : Nat) (card : Card), d.m_deck[k]? = some card →
      2 ≤ card.getCardValue ∧ card.getCardValue ≤ 11 := by
    intro k card hc
    obtain ⟨hlt, hget⟩ := List.getElem?_eq_some_iff.mp hc
    rw [← hget]
    exact hval _ (List.getElem_mem hlt)
  constructor
  · intro r hr
    obtain ⟨card0, card1, card2, t, h0, h1, h2, hp, -, -, -, e4, hb, hs⟩ :=
      playBlackjack_some d cin r hr
    have v0 := hcard 0 card0 h0
    have v1 := hcard 1 card1 h1
    have v2 := hcard 2 card2 h2
    obtain ⟨c1, c2⟩ := playerLoop_cards d hval2 _ _ 3 cin t hp (by push_cast; omega)
    have h19 : r.ptr ≤ 19 := by
      by_cases hbust : t.bust = true
      · obtain ⟨-, -, hptr⟩ := hb hbust
        rcases c2 hbust with e | e <;> omega
      · have hf : t.bust = false := by simpa using hbust
        obtain ⟨hd, -⟩ := hs hf
        have h8 := dealerLoop_draws d hval2 _ _ _ _ _ hd v0.1
        rcases c1 hf with e | e <;> omega
    refine ⟨h19, by omega, ?_⟩
    intro k hk
    have hlt : k < d.m_deck.length := by omega
    exact ⟨d.m_deck[k], by simp [Deck.dealCard, List.getElem?_eq_getElem hlt]⟩
  · intro hmem
    have hl0 : 0 < d.m_deck.length := by omega
    have hl1 : 1 < d.m_deck.length := by omega
    have hl2 : 2 < d.m_deck.length := by omega
    have h0 : d.m_deck[0]? = some d.m_deck[0] := List.getElem?_eq_getElem hl0
    have h1 : d.m_deck[1]? = some d.m_deck[1] := List.getElem?_eq_getElem hl1
    have h2 : d.m_deck[2]? = some d.m_deck[2] := List.getElem?_eq_getElem hl2
    have v0 := hcard 0 _ h0
    have v1 := hcard 1 _ h1
    have v2 := hcard 2 _ h2
    obtain ⟨t, hp⟩ := playerLoop_total d hval2 (by omega) (d.m_deck.length + 1)
      ((d.m_deck[1]).getCardValue + (d.m_deck[2]).getCardValue) 3 cin hmem
      (by push_cast; omega) (by omega) (by omega)
    obtain ⟨c1, -⟩ := playerLoop_cards d hval2 _ _ 3 cin t hp (by push_cast; omega)
    rw [playBlackjack_unfold d cin _ _ _ h0 h1 h2]
    simp only [hp]
    by_cases hbust : t.bust = true
    · exact ⟨_, by rw [if_pos hbust]⟩
    · have hf : t.bust = false := by simpa using hbust
      have hptr : t.ptr ≤ 11 := by
        rcases c1 hf with e | e <;> omega
      obtain ⟨q, hq⟩ := dealerLoop_total d hval2 (d.m_deck.length + 1)
        (d.m_deck[0]).getCardValue t.ptr (by omega)
        (fun _ => ⟨by omega, by push_cast; omega⟩)
      obtain ⟨dealerTotal1, ptr4⟩ := q
      rw [if_neg hbust]
      simp only [hq]
      by_cases hw : dealerTotal1 > 21
      · exact ⟨_, by rw [if_pos hw]⟩
      · exact ⟨_, by rw [if_neg hw]⟩

/-- On the constructed deck the round in which the player hits twice and
stands returns after 7 cards. -/
theorem C17_cards_per_round_witness :
    Blackjack.playBlackjack Deck.new ['h', 'h', 's'] =
      some ⟨true, 18, 17, 7, 's', [], false⟩ ∧
    7 ≤ 19 ∧ 7 ≤ 20 :=
  have h := (C17_cards_per_round Deck.new (by decide) (by decide) ['h', 'h', 's']).1
    ⟨true, 18, 17, 7, 's', [], false⟩ (by decide)
  ⟨by decide, h.1, h.2.1⟩

/-! ## Blackjack: the hit that goes above 21 (C5) -/

/-- A character that is neither `h` nor `s` is read over by the player loop. -/
theorem playerLoop_skip (d : Deck) (fuel : Nat) (playerTotal : Int) (ptr : Nat) (c : Char)
    (cin : List Char) (hh : c ≠ 'h') (hs : c ≠ 's') :
    Blackjack.playerLoop d fuel playerTotal ptr (c :: cin) =
      Blackjack.playerLoop d fuel playerTotal ptr cin := by
  cases fuel with
  | zero => rfl
  | succ fuel =>
    rw [Blackjack.playerLoop, Blackjack.playerLoop, Blackjack.getPlayerChoice, if_pos ⟨hh, hs⟩]

/-- The player loop on an input that holds no `s` before an `h` whose card
takes the total above 21, while the hits before it did not: the loop returns
at that `h`, with the cards of all these hits dealt and the rest of the
input unread. -/
theorem playerLoop_bust_after (d : Deck) (card : Card) (rest : List Char) :
    ∀ (pre : List Char) (fuel : Nat) (playerTotal : Int) (ptr : Nat),
    's' ∉ pre → pre.count 'h' < fuel →
    (∀ j : Nat, j < pre.count 'h' → playerTotal + d.valueSum ptr (j + 1) ≤ 21) →
    d.m_deck[ptr + pre.count 'h']? = some card →
    21 < playerTotal + d.valueSum ptr (pre.count 'h') + card.getCardValue →
    Blackjack.playerLoop d fuel playerTotal ptr (pre ++ 'h' :: rest) =
      some ⟨playerTotal + d.valueSum ptr (pre.count 'h') + card.getCardValue,
        ptr + pre.count 'h' + 1, 'h', rest, true⟩
  | [], fuel, playerTotal, ptr, _, hfuel, _, hcard, hbust => by
    cases fuel with
    | zero => simp at hfuel
    | succ fuel =>
      simp only [List.count_nil, add_zero] at hcard hbust ⊢
      have hz : d.valueSum ptr 0 = 0 := by simp [Deck.valueSum]
      rw [hz, add_zero] at hbust ⊢
      rw [List.nil_append, Blackjack.playerLoop]
      simp [Blackjack.getPlayerChoice, Deck.dealCard, hcard, hbust]
  | c :: pre, fuel, playerTotal, ptr, hs, hfuel, hbefore, hcard, hbust => by
    have hcs : c ≠ 's' := fun e => hs (by simp [e])
    have hpre : 's' ∉ pre := fun e => hs (List.mem_cons_of_mem _ e)
    by_cases hh : c = 'h'
    · subst hh
      have hcount : ('h' :: pre).count 'h' = pre.count 'h' + 1 := by simp
      rw [hcount] at hfuel hcard hbust hbefore ⊢
      cases fuel with
      | zero => omega
      | succ fuel =>
        have hlt : ptr < d.m_deck.length := by
          have := (List.getElem?_eq_some_iff.mp hcard).1
          omega
        have hc : d.m_deck[ptr]? = some d.m_deck[ptr] := List.getElem?_eq_getElem hlt
        have h1 := hbefore 0 (by omega)
        rw [valueSum_succ d ptr 0 _ hc] at h1
        have hz : d.valueSum (ptr + 1) 0 = 0 := by simp [Deck.valueSum]
        rw [hz, add_zero] at h1
        have hnb : ¬ (playerTotal + (d.m_deck[ptr]).getCardValue > 21) := by omega
        have ih := playerLoop_bust_after d card rest pre fuel
          (playerTotal + (d.m_deck[ptr]).getCardValue) (ptr + 1) hpre (by omega)
          (fun j hj => by
            have := hbefore (j + 1) (by omega)
            rw [valueSum_succ d ptr (j + 1) _ hc] at this
            omega)
          (by rw [← hcard]; congr 1; omega)
          (by rw [valueSum_succ d ptr _ _ hc] at hbust; omega)
        rw [List.cons_append, Blackjack.playerLoop]
        simp only [Blackjack.getPlayerChoice, ne_eq, not_true_eq_false, false_and, if_false,
          Deck.dealCard, hc, if_neg hnb]
        rw [if_neg (by decide), ih, valueSum_succ d ptr _ _ hc]
        simp only [Option.some.injEq, Blackjack.Turn.mk.injEq, and_true, true_and]
        constructor <;> omega
    · have hcount : (c :: pre).count 'h' = pre.count 'h' := by
        rw [List.count_cons_of_ne (Ne.symm hh)]
      rw [hcount] at hfuel hcard hbust hbefore ⊢
      rw [List.cons_append, playerLoop_skip d fuel playerTotal ptr c _ hh hcs]
      exact playerLoop_bust_after d card rest pre fuel playerTotal ptr hpre hfuel hbefore
        hcard hbust

/-- C5: if a Hit brings the player total above 21, `playBlackjack` returns
lose immediately.  The input is `pre`, which holds no stand and whose hits
(`k` of them, `k = pre.count 'h'`) leave the total at 21 or less, then an
`h`, then anything (`rest`); the card of that last hit is the one after the
first three and the `k` of the earlier hits, and it takes the total above
21.  Then the round returns lose with that total; the dealer total is the
value of the dealer's first card, whatever it is, and the cards dealt are
the first three and those of the `k + 1` hits, so the dealer drew none after
its first; and `rest` is left unread: no further decision is requested. -/
theorem C5_bust_loses (d : Deck) (card0 card1 card2 card : Card) (pre rest : List Char)
    (h0 : d.m_deck[0]? = some card0) (h1 : d.m_deck[1]? = some card1)
    (h2 : d.m_deck[2]? = some card2)
    (hpre : 's' ∉ pre)
    (hbefore : ∀ j : Nat, j < pre.count 'h' →
      card1.getCardValue + card2.getCardValue + d.valueSum 3 (j + 1) ≤ 21)
    (hcard : d.m_deck[3 + pre.count 'h']? = some card)
    (hbust : 21 < card1.getCardValue + card2.getCardValue + d.valueSum 3 (pre.count 'h') +
      card.getCardValue) :
    Blackjack.playBlackjack d (pre ++ 'h' :: rest) =
      some ⟨false,
        card1.getCardValue + card2.getCardValue + d.valueSum 3 (pre.count 'h') +
          card.getCardValue,
        card0.getCardValue, 3 + pre.count 'h' + 1, 'h', rest, true⟩ := by
  have hlt := (List.getElem?_eq_some_iff.mp hcard).1
  have hloop := playerLoop_bust_after d card rest pre (d.m_deck.length + 1)
    (card1.getCardValue + card2.getCardValue) 3 hpre (by omega) hbefore hcard hbust
  rw [playBlackjack_unfold d _ card0 card1 card2 h0 h1 h2, hloop]
  simp

/-- On the constructed deck the dealer shows 2 and the player holds 7; the
input is `h`, `x`, `h`, then `h`, then `s`.  The two hits of the prefix bring
5 and 6 (totals 12 and 18); the next hit brings the 7 and takes the total to
25: the round is lost, the dealer still on 2, six cards dealt, the `s` left
unread. -/
theorem C5_bust_loses_witness :
    Blackjack.playBlackjack Deck.new (['h', 'x', 'h'] ++ 'h' :: ['s']) =
      some ⟨false, 3 + 4 + Deck.new.valueSum 3 (['h', 'x', 'h'].count 'h') + 7, 2,
        3 + ['h', 'x', 'h'].count 'h' + 1, 'h', ['s'], true⟩ ∧
    Blackjack.playBlackjack Deck.new ['h', 'x', 'h', 'h', 's'] =
      some ⟨false, 25, 2, 6, 'h', ['s'], true⟩ :=
  ⟨C5_bust_loses Deck.new ⟨2, 0⟩ ⟨3, 0⟩ ⟨4, 0⟩ ⟨7, 0⟩ ['h', 'x', 'h'] ['s']
    (by decide) (by decide) (by decide) (by decide) (by decide) (by decide) (by decide),
   by decide⟩

end Games
